import Mathlib

/-!
# TFC: schema-driven class (de)serialization and selector keys

A shallow embedding of

* `inc/TFC/Serialization/ClassSerializer.h`
  (`ClassSerializer`, `ClassDeserializerSelect`, `ClassDeserializerFunctor`, `ClassDeserializer`),
* `inc/TFC/Core/Introspect.h`: `StorageSelector` with the comparison operators and the hash of
  its 16-byte form, the key classes `PointerToMember` and `PointerToMemberFunction` with their
  hash functors, and the compile-time traits `MemberFunction`, `StaticFunction`,
  `IsMemberFunction`, `IsFunctionPointer`, `HasCallOperator`, `CallableObject`.

Conventions of the embedding.

* The declaring class `TDeclaring` is a type `α`; `TDeclaring ret;` is `(default : α)`.
* C++ gives every field its own `ValueType`. Here all field values live in one value type `V`,
  and the `ValueType` of a field is a tag `Ty`; the template argument of
  `Deserialize<ValueType>(idx)` is passed as that tag.
* A field descriptor (`TField`) is the record of its three static functions `Get`, `Set`,
  `Evaluate`. `Set` mutates its first argument, so it returns the new instance.
* A backend object is mutated through a reference. Its state is threaded explicitly, and the
  session additionally records, in order, every call the engine made on the backend (`calls`).
  The record is observation only: no engine function ever reads it.
* A C++ exception thrown by the backend is the `Except.error` alternative; the session returned
  next to it is the backend as it stood when the exception left the engine.
* `curIdx` is a C++ `int`. It starts at `0` and is incremented once per field of the schema, whose
  length is a template pack size, so it stays far below `2^31`; it is an unbounded `Int` here.
-/

namespace TFC
namespace Serialization

/-- Field descriptor `TField`: its `ValueType` tag and its static members `Get`, `Set`,
`Evaluate` (the presence predicate). -/
structure FieldInfo (α Ty V : Type) where
  ValueType : Ty
  Get : α → V
  Set : α → V → α
  Evaluate : α → Bool

/-- The field list `TField...` of `TypeSerializationInfo<TDeclaring, TField...>`, in declared
order. -/
abbrev TypeSerializationInfo (α Ty V : Type) := List (FieldInfo α Ty V)

/-! ## Deserializer backend -/

/-- Unpacker role `TDeserializerClass`: constructed from a `SerializedType`, with
`Deserialize<T>(index)` (which may throw `ε`) and `Finalize()`. -/
structure DeserializerClass (SerializedType σ Ty V ε : Type) where
  ctor : SerializedType → σ
  Deserialize : Ty → Int → σ → σ × Except ε V
  Finalize : σ → σ

/-- One call made on an unpacker. -/
inductive UnpackCall (Ty : Type) where
  | Deserialize (ty : Ty) (idx : Int)
  | Finalize
  deriving DecidableEq, Repr

/-- Whether the call is `Finalize()`. -/
def UnpackCall.isFinalize {Ty : Type} : UnpackCall Ty → Bool
  | .Finalize => true
  | .Deserialize _ _ => false

/-- An unpacker object: backend state plus the record of calls made on it so far. -/
structure Unpacker (σ Ty : Type) where
  state : σ
  calls : List (UnpackCall Ty)

section Deserialization

variable {SerializedType σ Ty V ε α : Type}

/-- The member call `p.Deserialize<ty>(idx)` on the unpacker `p`. -/
def Unpacker.Deserialize (D : DeserializerClass SerializedType σ Ty V ε)
    (p : Unpacker σ Ty) (ty : Ty) (idx : Int) : Unpacker σ Ty × Except ε V :=
  (⟨(D.Deserialize ty idx p.state).1, p.calls ++ [UnpackCall.Deserialize ty idx]⟩,
    (D.Deserialize ty idx p.state).2)

/-- The member call `p.Finalize()` on the unpacker `p`. -/
def Unpacker.Finalize (D : DeserializerClass SerializedType σ Ty V ε)
    (p : Unpacker σ Ty) : Unpacker σ Ty :=
  ⟨D.Finalize p.state, p.calls ++ [UnpackCall.Finalize]⟩

/-- `ClassDeserializerSelect::DeserializeAndSet(p, obj, curIdx)`:
`if(TField::Evaluate(obj)) TField::Set(obj, p.Deserialize<ValueType>(curIdx));`. -/
def ClassDeserializerSelect.DeserializeAndSet (D : DeserializerClass SerializedType σ Ty V ε)
    (TField : FieldInfo α Ty V) (p : Unpacker σ Ty) (obj : α) (curIdx : Int) :
    Unpacker σ Ty × Except ε α :=
  if TField.Evaluate obj then
    match p.Deserialize D TField.ValueType curIdx with
    | (p1, Except.ok v) => (p1, Except.ok (TField.Set obj v))
    | (p1, Except.error e) => (p1, Except.error e)
  else
    (p, Except.ok obj)

/-- `ClassDeserializerFunctor<..., TFieldArgs...>::Func(p, obj, curIdx)`: the empty pack does
nothing; otherwise the current field is handled by `DeserializeAndSet` at `curIdx` and the
remaining fields by `Func` at `curIdx + 1`. -/
def ClassDeserializerFunctor.Func (D : DeserializerClass SerializedType σ Ty V ε) :
    TypeSerializationInfo α Ty V → Unpacker σ Ty → α → Int → Unpacker σ Ty × Except ε α
  | [], p, obj, _ => (p, Except.ok obj)
  | TCurrentField :: TRemainArgs, p, obj, curIdx =>
    match ClassDeserializerSelect.DeserializeAndSet D TCurrentField p obj curIdx with
    | (p1, Except.ok obj1) => ClassDeserializerFunctor.Func D TRemainArgs p1 obj1 (curIdx + 1)
    | (p1, Except.error e) => (p1, Except.error e)

/-- `ClassDeserializer::Deserialize(SerializedType p, bool finalizePackedObject)`. The unpacker
is a local of the call; it is returned next to the result so that the calls made on it can be
observed. -/
def ClassDeserializer.Deserialize [Inhabited α] (D : DeserializerClass SerializedType σ Ty V ε)
    (TFieldArgs : TypeSerializationInfo α Ty V) (p : SerializedType)
    (finalizePackedObject : Bool) : Unpacker σ Ty × Except ε α :=
  let unpacker : Unpacker σ Ty := ⟨D.ctor p, []⟩
  match ClassDeserializerFunctor.Func D TFieldArgs unpacker (default : α) 0 with
  | (unpacker1, Except.ok ret) =>
    if finalizePackedObject then (unpacker1.Finalize D, Except.ok ret)
    else (unpacker1, Except.ok ret)
  | (unpacker1, Except.error e) => (unpacker1, Except.error e)

/-- `ClassDeserializer::Deserialize(TDeserializerClass& unpacker)`: unpack from a session the
caller owns. -/
def ClassDeserializer.DeserializeFrom [Inhabited α]
    (D : DeserializerClass SerializedType σ Ty V ε)
    (TFieldArgs : TypeSerializationInfo α Ty V) (unpacker : Unpacker σ Ty) :
    Unpacker σ Ty × Except ε α :=
  ClassDeserializerFunctor.Func D TFieldArgs unpacker (default : α) 0

end Deserialization

/-! ## Serializer backend -/

/-- Packer role `TSerializerClass`: default-constructible (`ctor`), with `EndPack()` returning
the `SerializedType`; these two are what `ClassSerializer` uses. The member `Pack` is modelled
from the spec, which gives the packer a primitive `Pack(value: T) -> ()` whose failure
propagates to the caller; it may throw `ε`, and the template argument is passed as the tag. -/
structure SerializerClass (SerializedType π Ty V ε : Type) where
  ctor : π
  Pack : Ty → V → π → π × Except ε Unit
  EndPack : π → SerializedType

/-- One call made on a packer. -/
inductive PackCall (Ty V : Type) where
  | Pack (ty : Ty) (v : V)
  | EndPack
  deriving DecidableEq, Repr

/-- Whether the call is `EndPack()`. -/
def PackCall.isEndPack {Ty V : Type} : PackCall Ty V → Bool
  | .EndPack => true
  | .Pack _ _ => false

/-- A packer object: backend state plus the record of calls made on it so far. -/
structure Packer (π Ty V : Type) where
  state : π
  calls : List (PackCall Ty V)

section Serialization

variable {SerializedType π Ty V ε α : Type}

/-- Modelled from the spec: the member call of the primitive pack operation, packing one value
of type `ty` into the packer `p`; it is what the absent `SerializerFunctor` calls. -/
def Packer.Pack (P : SerializerClass SerializedType π Ty V ε)
    (p : Packer π Ty V) (ty : Ty) (v : V) : Packer π Ty V × Except ε Unit :=
  (⟨(P.Pack ty v p.state).1, p.calls ++ [PackCall.Pack ty v]⟩, (P.Pack ty v p.state).2)

/-- The member call `p.EndPack()`. -/
def Packer.EndPack (P : SerializerClass SerializedType π Ty V ε)
    (p : Packer π Ty V) : Packer π Ty V × SerializedType :=
  (⟨p.state, p.calls ++ [PackCall.EndPack]⟩, P.EndPack p.state)

/-- Modelled from the spec: `SerializerFunctor<TSerializerClass, ValueType...>::Func(packer,
values...)` is declared in `TFC/Serialization.h`, which is not among the sources. Following
"the engine packs each field's value with the backend's primitive pack operation for that
field's ValueType" in "the schema's declared order", it packs the values it is handed one after
the other, first to last, and stops at the first pack that throws. -/
def SerializerFunctor.Func (P : SerializerClass SerializedType π Ty V ε) :
    Packer π Ty V → List (Ty × V) → Packer π Ty V × Except ε Unit
  | p, [] => (p, Except.ok ())
  | p, (ty, v) :: next =>
    match p.Pack P ty v with
    | (p1, Except.ok _) => SerializerFunctor.Func P p1 next
    | (p1, Except.error e) => (p1, Except.error e)

/-- `ClassSerializer::Serialize(TDeclaring const& ptr)`: a fresh packer, the functor on
`TField::Get(ptr)...`, then `return packer.EndPack();`. The packer is a local of the call; it
is returned next to the result so that the calls made on it can be observed. -/
def ClassSerializer.Serialize (P : SerializerClass SerializedType π Ty V ε)
    (TField : TypeSerializationInfo α Ty V) (ptr : α) :
    Packer π Ty V × Except ε SerializedType :=
  let packer : Packer π Ty V := ⟨P.ctor, []⟩
  match SerializerFunctor.Func P packer (TField.map fun f => (f.ValueType, f.Get ptr)) with
  | (packer1, Except.ok _) => ((packer1.EndPack P).1, Except.ok (packer1.EndPack P).2)
  | (packer1, Except.error e) => (packer1, Except.error e)

/-- `ClassSerializer::Serialize(TSerializerClass& packer, TDeclaring const& ptr)`: the functor
on `TField::Get(ptr)...` against the caller's packer, and nothing else. -/
def ClassSerializer.SerializeInto (P : SerializerClass SerializedType π Ty V ε)
    (TField : TypeSerializationInfo α Ty V) (packer : Packer π Ty V) (ptr : α) :
    Packer π Ty V × Except ε Unit :=
  SerializerFunctor.Func P packer (TField.map fun f => (f.ValueType, f.Get ptr))

end Serialization

/-! ## Vocabulary of the statements -/

section Vocabulary

variable {SerializedType σ π Ty V ε α : Type}

/-- The typed values handed to `Pack`, in order, read off a record of packer calls. -/
def packedValues : List (PackCall Ty V) → List (Ty × V)
  | [] => []
  | PackCall.Pack ty v :: cs => (ty, v) :: packedValues cs
  | PackCall.EndPack :: cs => packedValues cs

/-- States an unpacker can reach from the state `s0` through `Deserialize` calls. -/
inductive DeserializerClass.Reach (D : DeserializerClass SerializedType σ Ty V ε) (s0 : σ) :
    σ → Prop where
  | start : DeserializerClass.Reach D s0 s0
  | step {s : σ} (ty : Ty) (idx : Int) :
    DeserializerClass.Reach D s0 s → DeserializerClass.Reach D s0 (D.Deserialize ty idx s).1

/-- The unpacker built from `payload` gives back what was packed: in every state it can reach,
`Deserialize<T_i>(i)` returns the `i`-th packed value, `T_i` being the type it was packed
with. -/
def DeserializerClass.ReturnsPacked (D : DeserializerClass SerializedType σ Ty V ε)
    (payload : SerializedType) (packed : List (Ty × V)) : Prop :=
  ∀ s, D.Reach (D.ctor payload) s → ∀ (i : Nat) (h : i < packed.length),
    (D.Deserialize (packed.get ⟨i, h⟩).1 (i : Int) s).2 = Except.ok (packed.get ⟨i, h⟩).2

/-- Schema-model invariant on getters and setters. A value of a field's `ValueType` is a value
its getter can read, `Get_i x`. Setting it at position `i` makes the getter of position `i`
read it back, and leaves what the getters of the other positions read unchanged. -/
def LawfulSchema (TField : TypeSerializationInfo α Ty V) : Prop :=
  ∀ (i j : Nat) (hi : i < TField.length) (hj : j < TField.length) (o x : α),
    (TField.get ⟨j, hj⟩).Get ((TField.get ⟨i, hi⟩).Set o ((TField.get ⟨i, hi⟩).Get x)) =
      if i = j then (TField.get ⟨i, hi⟩).Get x else (TField.get ⟨j, hj⟩).Get o

/-- Whether, in the run of `Func` from index `0` on the backend state `s` and the instance
`obj`, the turn of the field at position `k` comes (the run over the fields before it returns)
and its presence predicate is true on the instance as it stands at that point. -/
def predicateHeldAt (D : DeserializerClass SerializedType σ Ty V ε)
    (S : TypeSerializationInfo α Ty V) (s : σ) (obj : α) (k : Nat) : Bool :=
  match S.get? k, ClassDeserializerFunctor.Func D (S.take k) ⟨s, []⟩ obj 0 with
  | some f, (_, Except.ok o) => f.Evaluate o
  | _, _ => false

/-- The backend call `Deserialize<ValueType_k>(k)` when the predicate of position `k` held at
its turn, and no call otherwise. -/
def callAt (D : DeserializerClass SerializedType σ Ty V ε)
    (S : TypeSerializationInfo α Ty V) (s : σ) (obj : α) (k : Nat) : Option (UnpackCall Ty) :=
  match S.get? k with
  | some f =>
    if predicateHeldAt D S s obj k then some (UnpackCall.Deserialize f.ValueType (k : Int))
    else none
  | none => none

end Vocabulary

/-! ## A list-backed wire format and two small classes -/

namespace Demo

/-- Value types of the demo classes. -/
inductive Ty where
  | int
  | string
  deriving DecidableEq, Repr

/-- A field value: an `int` or a `string`. -/
inductive Value where
  | int (i : Int)
  | str (s : String)
  deriving DecidableEq, Repr

/-- The type a value has. -/
def Value.ty : Value → Ty
  | .int _ => Ty.int
  | .str _ => Ty.string

/-- Errors the list unpacker throws. -/
inductive UnpackError where
  | outOfRange (idx : Int)
  | typeMismatch (idx : Int)
  deriving DecidableEq, Repr

/-- A packer that appends every packed value to a list; the list is the serialized form. -/
def listPacker : SerializerClass (List Value) (List Value) Ty Value UnpackError where
  ctor := []
  Pack := fun _ v st => (st ++ [v], Except.ok ())
  EndPack := fun st => st

/-- The matching unpacker: slot `idx` is the `idx`-th element of the list; a missing slot or a
slot of another type throws. -/
def listUnpacker : DeserializerClass (List Value) (List Value) Ty Value UnpackError where
  ctor := fun p => p
  Deserialize := fun ty idx st =>
    (st,
      if idx < 0 then Except.error (UnpackError.outOfRange idx)
      else
        match st.get? idx.toNat with
        | some v => if v.ty = ty then Except.ok v else Except.error (UnpackError.typeMismatch idx)
        | none => Except.error (UnpackError.outOfRange idx))
  Finalize := fun st => st

/-- The class `{id: int, name: string, email: string}`. -/
structure Person where
  id : Int
  name : String
  email : String
  deriving DecidableEq, Repr

/-- The default constructor sets `email` to the sentinel `"unset"`. -/
instance : Inhabited Person := ⟨⟨0, "", "unset"⟩⟩

/-- Field `id`, unconditional. -/
def Person.idField : FieldInfo Person Ty Value where
  ValueType := Ty.int
  Get := fun o => Value.int o.id
  Set := fun o v => match v with
    | Value.int i => { o with id := i }
    | Value.str _ => o
  Evaluate := fun _ => true

/-- Field `name`, unconditional. -/
def Person.nameField : FieldInfo Person Ty Value where
  ValueType := Ty.string
  Get := fun o => Value.str o.name
  Set := fun o v => match v with
    | Value.str s => { o with name := s }
    | Value.int _ => o
  Evaluate := fun _ => true

/-- Field `email`, with the presence predicate "email is non-empty". -/
def Person.emailField : FieldInfo Person Ty Value where
  ValueType := Ty.string
  Get := fun o => Value.str o.email
  Set := fun o v => match v with
    | Value.str s => { o with email := s }
    | Value.int _ => o
  Evaluate := fun o => decide (o.email ≠ "")

/-- The schema `{id, name, email}`. -/
def Person.schema : TypeSerializationInfo Person Ty Value :=
  [Person.idField, Person.nameField, Person.emailField]

/-- The instance `{1, "Ann", ""}`. -/
def ann : Person := ⟨1, "Ann", ""⟩

/-- A class with two `int` fields; the default constructor zeroes both. -/
structure Reading where
  value : Int
  count : Int
  deriving DecidableEq, Repr

instance : Inhabited Reading := ⟨⟨0, 0⟩⟩

/-- Field `value`, present only when `count` is non-zero. -/
def Reading.valueField : FieldInfo Reading Ty Value where
  ValueType := Ty.int
  Get := fun o => Value.int o.value
  Set := fun o v => match v with
    | Value.int i => { o with value := i }
    | Value.str _ => o
  Evaluate := fun o => decide (o.count ≠ 0)

/-- Field `count`, unconditional. -/
def Reading.countField : FieldInfo Reading Ty Value where
  ValueType := Ty.int
  Get := fun o => Value.int o.count
  Set := fun o v => match v with
    | Value.int i => { o with count := i }
    | Value.str _ => o
  Evaluate := fun _ => true

/-- The schema `{value, count}`, `value` declared first. -/
def Reading.schema : TypeSerializationInfo Reading Ty Value :=
  [Reading.valueField, Reading.countField]

end Demo

end Serialization

/-! ## Introspect: the 16-byte selector storage -/

namespace Core
namespace Introspect

/-- `StorageSelector<16>::Type`, that is `struct { unsigned long long value[2]; }`. The two
words are 64-bit unsigned integers, kept as natural numbers; the comparisons below do no
arithmetic on them. -/
structure StorageSelector16 where
  value : Fin 2 → Nat

/-- `operator==(StorageSelector<16>::Type const& a, StorageSelector<16>::Type const& b)`:
`a.value[0] == b.value[0] && a.value[1] == b.value[1]`. -/
def StorageSelector16.operator_eq (a b : StorageSelector16) : Bool :=
  a.value 0 == b.value 0 && a.value 1 == b.value 1

/-- `operator!=(StorageSelector<16>::Type const& a, StorageSelector<16>::Type const& b)`:
`a.value[0] != b.value[0] || a.value[1] != b.value[1]`. -/
def StorageSelector16.operator_ne (a b : StorageSelector16) : Bool :=
  a.value 0 != b.value 0 || a.value 1 != b.value 1

/-! ### Hashing of selector storage -/

/-- The conversion of an `unsigned long long` to `long long` that passing `s.value[i]` to
`std::hash<long long>::operator()` performs: the same 64 bits, read as two's complement. -/
def toLongLong (v : Nat) : Int :=
  if v % 2 ^ 64 < 2 ^ 63 then ((v % 2 ^ 64 : Nat) : Int) else ((v % 2 ^ 64 : Nat) : Int) - 2 ^ 64

/-- The hash functions of the standard library that the header uses; they are not part of the
repository and are taken as given: `std::hash<long long>`, `std::hash` of the unsigned integer
type of `size` bytes, and `std::hash<unsigned char*>` (on the address held by the pointer).
Their results are `size_t` values. -/
structure StdHash where
  longlong : Int → Nat
  integer : (size : Nat) → Nat → Nat
  pointer : Nat → Nat

/-- `std::hash<StorageSelector<16>::Type>::operator()(s)`:
`std::hash<long long> hasher; return hasher(s.value[0]) ^ hasher(s.value[1]);`. The exclusive or
of two `size_t` values is a `size_t` value, so no reduction is needed. -/
def StorageSelector16.hash (H : StdHash) (s : StorageSelector16) : Nat :=
  H.longlong (toLongLong (s.value 0)) ^^^ H.longlong (toLongLong (s.value 1))

/-! ### Storage of every width, and the two key classes -/

/-- Which definition of `StorageSelector<size>` applies. -/
inductive StorageKind where
  /-- The specializations `<1>`, `<2>`, `<4>`, `<8>`: `unsigned char`, `unsigned short`,
  `unsigned int`, `unsigned long long`. -/
  | integer (size : Nat)
  /-- The specialization `<16>`: `struct { unsigned long long value[2]; }`. -/
  | words16
  /-- The primary template: `unsigned char[size]`. -/
  | bytes (size : Nat)
  deriving DecidableEq, Repr

/-- Selection of the definition of `StorageSelector<size>`: an explicit specialization when
there is one for `size`, the primary template otherwise. -/
def StorageSelector (size : Nat) : StorageKind :=
  if size = 1 ∨ size = 2 ∨ size = 4 ∨ size = 8 then StorageKind.integer size
  else if size = 16 then StorageKind.words16
  else StorageKind.bytes size

/-- An array object `unsigned char[size]`: the address of its first element and the bytes it
holds. -/
structure CharArray where
  address : Nat
  bytes : List Nat
  deriving DecidableEq, Repr

/-- An lvalue of type `StorageSelector<size>::Type`: an unsigned integer, the two-word struct,
or an array object. -/
def StorageKind.Lvalue : StorageKind → Type
  | StorageKind.integer _ => Nat
  | StorageKind.words16 => StorageSelector16
  | StorageKind.bytes _ => CharArray

/-- The content stored in an lvalue of type `StorageSelector<size>::Type`, as words: the
integer, the two words, or the bytes of the array. An unsigned integer type has no padding, so
two of them hold the same bytes exactly when they hold the same value. -/
def StorageKind.stored : (k : StorageKind) → k.Lvalue → List Nat
  | StorageKind.integer _, v => [v]
  | StorageKind.words16, s => [StorageSelector16.value s 0, StorageSelector16.value s 1]
  | StorageKind.bytes _, a => CharArray.bytes a

/-- The expression `value == other.value` on two lvalues of type `StorageSelector<size>::Type`:
the built-in comparison for the integer types, the overloaded `operator==` for the 16-byte
struct, and for arrays the comparison of the two pointers that the arrays convert to. -/
def StorageKind.operator_eq : (k : StorageKind) → k.Lvalue → k.Lvalue → Bool
  | StorageKind.integer _, a, b => Nat.beq a b
  | StorageKind.words16, a, b => StorageSelector16.operator_eq a b
  | StorageKind.bytes _, a, b => Nat.beq (CharArray.address a) (CharArray.address b)

/-- The expression `std::hash<decltype(val)>()(val)` after `auto val = obj.value;`, as it
stands in the bodies of the two hash functors (lines 262 and 305 of the header). For an integer
it is the library hash of that integer type. For an array `auto` deduces a pointer, so it is
the library hash of the pointer. For the 16-byte struct it names
`std::hash<StorageSelector<16>::Type>` at a point where the explicit specialization of line 325
has not been declared yet: the use instantiates the library's primary template, which has no
call operator for this type, and the later specialization comes after that instantiation. The
program is ill-formed and there is no result (`none`). -/
def StorageKind.hash (H : StdHash) : (k : StorageKind) → k.Lvalue → Option Nat
  | StorageKind.integer size, v => some (H.integer size v)
  | StorageKind.words16, _ => none
  | StorageKind.bytes _, a => some (H.pointer (CharArray.address a))

/-- `struct PointerToMemberFunction`, on a platform where
`pointerSize = sizeof(void(Dummy::*)(void))`: its one data member `value`. -/
structure PointerToMemberFunction (pointerSize : Nat) where
  value : (StorageSelector pointerSize).Lvalue

/-- `PointerToMemberFunction::operator==(other)`: `return value == other.value;`. -/
def PointerToMemberFunction.operator_eq {pointerSize : Nat}
    (self other : PointerToMemberFunction pointerSize) : Bool :=
  StorageKind.operator_eq (StorageSelector pointerSize) self.value other.value

/-- `PointerToMemberFunctionHash::operator()(obj)`:
`auto val = obj.value; return std::hash<decltype(val)>()(val);`, with `none` where that is
ill-formed. -/
def PointerToMemberFunctionHash (H : StdHash) {pointerSize : Nat}
    (obj : PointerToMemberFunction pointerSize) : Option Nat :=
  StorageKind.hash H (StorageSelector pointerSize) obj.value

/-- `struct PointerToMember`, on a platform where `pointerSize = sizeof(int (Dummy::*))`: its
one data member `value`. -/
structure PointerToMember (pointerSize : Nat) where
  value : (StorageSelector pointerSize).Lvalue

/-- `PointerToMember::operator==(other)`: `return value == other.value;`. -/
def PointerToMember.operator_eq {pointerSize : Nat}
    (self other : PointerToMember pointerSize) : Bool :=
  StorageKind.operator_eq (StorageSelector pointerSize) self.value other.value

/-- `PointerToMemberHash::operator()(obj)`:
`auto val = obj.value; return std::hash<decltype(val)>()(val);`, with `none` where that is
ill-formed. -/
def PointerToMemberHash (H : StdHash) {pointerSize : Nat}
    (obj : PointerToMember pointerSize) : Option Nat :=
  StorageKind.hash H (StorageSelector pointerSize) obj.value

/-! ### Types, and the compile-time traits

The traits are class templates whose members are computed by the compiler from a type argument.
A type argument is a term of `CType`; a trait is a function on `CType`; choosing a partial
specialization is pattern matching, the primary template being the last case. A member that a
specialization does not declare is absent (`none`), and so is the whole result when
instantiating the class is ill-formed. -/

/-- C++ types, as far as the traits tell them apart. A pointer to function is
`pointer (function ret args)`; `memberFunction` is `ret (declaring::*)(args...)` with its
`const` and `volatile` qualifiers; `memberObject` is `t declaring::*`. -/
inductive CType where
  | fundamental (name : String)
  | cls (name : String)
  | const (t : CType)
  | lref (t : CType)
  | rref (t : CType)
  | pointer (t : CType)
  | array (t : CType) (n : Nat)
  | function (ret : CType) (args : List CType)
  | memberObject (declaring : CType) (t : CType)
  | memberFunction (declaring : CType) (ret : CType) (args : List CType)
      (isConst : Bool) (isVolatile : Bool)

/-- `std::remove_reference<T>::type`. -/
def remove_reference : CType → CType
  | CType.lref t => t
  | CType.rref t => t
  | t => t

/-- `std::decay<T>::type`: drop the reference; then an array becomes a pointer to its element,
a function a pointer to it, and any other type loses its top-level `const`. -/
def decay (T : CType) : CType :=
  match remove_reference T with
  | CType.array t _ => CType.pointer t
  | CType.function ret args => CType.pointer (CType.function ret args)
  | CType.const t => t
  | t => t

/-- `std::remove_pointer<T>::type`, for `T*` and `T* const`. -/
def remove_pointer : CType → CType
  | CType.pointer t => t
  | CType.const (CType.pointer t) => t
  | t => t

/-- `std::is_function<T>::value`. -/
def is_function : CType → Bool
  | CType.function _ _ => true
  | _ => false

/-- The members of `MemberFunction<TReturn (TClass::*)(TArgs...)>`; `std::tuple<...>` is the
list of its element types. -/
structure MemberFunctionTraits where
  Arity : Nat
  ReturnType : CType
  DeclaringType : CType
  ArgsTuple : List CType
  ArgsTupleDecay : List CType

/-- `MemberFunction<...>::Args<idx>`, that is `std::tuple_element<idx, ArgsTuple>::type`. -/
def MemberFunctionTraits.Args (m : MemberFunctionTraits) (idx : Nat) : Option CType :=
  m.ArgsTuple.get? idx

/-- The body of the specialization `MemberFunction<TReturn (TClass::*)(TArgs...)>`:
`Arity = sizeof...(TArgs)`, `ReturnType = TReturn`, `DeclaringType = TClass`,
`ArgsTuple = std::tuple<TArgs...>`, `ArgsTupleDecay = std::tuple<std::decay<TArgs>::type...>`. -/
def MemberFunction.unqualified (TClass TReturn : CType) (TArgs : List CType) :
    MemberFunctionTraits :=
  { Arity := TArgs.length
    ReturnType := TReturn
    DeclaringType := TClass
    ArgsTuple := TArgs
    ArgsTupleDecay := TArgs.map decay }

/-- `template<typename TFuncType> struct MemberFunction`: the specialization for
`TReturn (TClass::*)(TArgs...)`, the specialization for `TReturn (TClass::*)(TArgs...) const`,
which derives from the former and adds nothing, and the empty primary template. -/
def MemberFunction : CType → Option MemberFunctionTraits
  | CType.memberFunction TClass TReturn TArgs false false =>
    some (MemberFunction.unqualified TClass TReturn TArgs)
  | CType.memberFunction TClass TReturn TArgs true false =>
    some (MemberFunction.unqualified TClass TReturn TArgs)
  | _ => none

/-- The members of `StaticFunction<TRet(TArgs...)>`. -/
structure StaticFunctionTraits where
  Arity : Nat
  ReturnType : CType
  ArgsTuple : List CType
  ArgsTupleDecay : List CType

/-- `template<typename T> struct StaticFunction`: the specialization for `TRet(TArgs...)` and
the empty primary template. -/
def StaticFunction : CType → Option StaticFunctionTraits
  | CType.function TRet TArgs =>
    some
      { Arity := TArgs.length
        ReturnType := TRet
        ArgsTuple := TArgs
        ArgsTupleDecay := TArgs.map decay }
  | _ => none

/-- `IsMemberFunction<T>::Value`: `true` in the specialization for
`TRet (TDeclaring::*)(TArgs...)`, `false` in the primary template. -/
def IsMemberFunction.Value : CType → Bool
  | CType.memberFunction _ _ _ false false => true
  | _ => false

/-- `IsFunctionPointer<T>::Value`: `true` in the specialization for `TRet(*)(TArgs...)`,
`false` in the primary template. -/
def IsFunctionPointer.Value : CType → Bool
  | CType.pointer (CType.function _ _) => true
  | _ => false

/-- One member function `operator()`: the class that declares it, and
`ret operator()(args...)` with its qualifiers. -/
structure CallOperator where
  declaring : String
  ret : CType
  args : List CType
  isConst : Bool
  isVolatile : Bool

/-- The program's classes: for each class name, the `operator()` functions that member lookup
of `operator()` in that class finds. They are the ones the class declares itself or, when it
declares none, the ones it inherits; each carries the class that declares it. -/
abbrev ClassTable := String → List CallOperator

/-- The type `decltype(&T::operator())`. The expression is well-formed when `T` is a class
type (possibly `const`) in which lookup finds exactly one `operator()`; its type is then the
pointer to member of the class that declares that operator, `R (Declaring::*)(A...)` with the
qualifiers of the operator. It is ill-formed otherwise. -/
def addressOfCallOperator (classes : ClassTable) : CType → Option CType
  | CType.cls name =>
    match classes name with
    | [op] =>
      some (CType.memberFunction (CType.cls op.declaring) op.ret op.args op.isConst op.isVolatile)
    | _ => none
  | CType.const (CType.cls name) =>
    match classes name with
    | [op] =>
      some (CType.memberFunction (CType.cls op.declaring) op.ret op.args op.isConst op.isVolatile)
    | _ => none
  | _ => none

/-- `HasCallOperator<T>::Value`: overload resolution picks `Test(decltype(&TTest::operator()))`
exactly when that parameter type is well-formed, and `Test(...)` otherwise. -/
def HasCallOperator.Value (classes : ClassTable) (T : CType) : Bool :=
  (addressOfCallOperator classes T).isSome

/-- What an instantiation of `CallableObject` declares: the fallback declares `Callable =
false` alone; the two other specializations declare `Callable = true` and `ReturnType`, and
derive from `MemberFunction<...>` or from `StaticFunction<...>`. -/
inductive CallableObjectTraits where
  | fallback
  | fromCallOperator (base : MemberFunctionTraits)
  | fromFunctionPointer (base : StaticFunctionTraits)

/-- `CallableObject<T>::ReturnType`, absent in the fallback. -/
def CallableObjectTraits.ReturnType : CallableObjectTraits → Option CType
  | CallableObjectTraits.fallback => none
  | CallableObjectTraits.fromCallOperator base => some base.ReturnType
  | CallableObjectTraits.fromFunctionPointer base => some base.ReturnType

/-- `CallableObject<T>::Arity`, inherited from the base, absent in the fallback. -/
def CallableObjectTraits.Arity : CallableObjectTraits → Option Nat
  | CallableObjectTraits.fallback => none
  | CallableObjectTraits.fromCallOperator base => some base.Arity
  | CallableObjectTraits.fromFunctionPointer base => some base.Arity

/-- `CallableObject<T>::ArgsTupleDecay`, inherited from the base, absent in the fallback. -/
def CallableObjectTraits.ArgsTupleDecay : CallableObjectTraits → Option (List CType)
  | CallableObjectTraits.fallback => none
  | CallableObjectTraits.fromCallOperator base => some base.ArgsTupleDecay
  | CallableObjectTraits.fromFunctionPointer base => some base.ArgsTupleDecay

/-- The default template argument of `CallableObject`:
`HasCallOperator<T>::Value || std::is_function<std::remove_pointer<T>::type>::value`. -/
def CallableObject.defaultArgument (classes : ClassTable) (T : CType) : Bool :=
  HasCallOperator.Value classes T || is_function (remove_pointer T)

/-- `CallableObject<T>`. With the default argument `false` it is the fallback. With `true` it
is `CallableObject<TRet(*)(TArgs...), true>`, derived from `StaticFunction<TRet(TArgs...)>`,
when `T` is a pointer to function, and otherwise `CallableObject<T, true>`, derived from
`MemberFunction<decltype(&T::operator())>` and naming its `ReturnType`: instantiating that one
is ill-formed (`none`) when `&T::operator()` is, or when the base has no `ReturnType`. -/
def CallableObject (classes : ClassTable) (T : CType) : Option CallableObjectTraits :=
  if CallableObject.defaultArgument classes T then
    match T with
    | CType.pointer (CType.function TRet TArgs) =>
      (StaticFunction (CType.function TRet TArgs)).map CallableObjectTraits.fromFunctionPointer
    | _ =>
      match addressOfCallOperator classes T with
      | some callOperator =>
        (MemberFunction callOperator).map CallableObjectTraits.fromCallOperator
      | none => none
  else
    some CallableObjectTraits.fallback

end Introspect
end Core

namespace Serialization

/-! ## Basic facts about the deserialization run -/

section DeserializationLemmas

variable {SerializedType σ Ty V ε α : Type}

theorem DeserializeAndSet_skip (D : DeserializerClass SerializedType σ Ty V ε)
    (f : FieldInfo α Ty V) (p : Unpacker σ Ty) (obj : α) (c : Int)
    (h : f.Evaluate obj = false) :
    ClassDeserializerSelect.DeserializeAndSet D f p obj c = (p, Except.ok obj) := by
  simp [ClassDeserializerSelect.DeserializeAndSet, h]

theorem DeserializeAndSet_ok (D : DeserializerClass SerializedType σ Ty V ε)
    (f : FieldInfo α Ty V) (p : Unpacker σ Ty) (obj : α) (c : Int) (v : V)
    (h : f.Evaluate obj = true) (hv : (D.Deserialize f.ValueType c p.state).2 = Except.ok v) :
    ClassDeserializerSelect.DeserializeAndSet D f p obj c =
      (⟨(D.Deserialize f.ValueType c p.state).1,
          p.calls ++ [UnpackCall.Deserialize f.ValueType c]⟩, Except.ok (f.Set obj v)) := by
  simp [ClassDeserializerSelect.DeserializeAndSet, h, Unpacker.Deserialize, hv]

theorem DeserializeAndSet_error (D : DeserializerClass SerializedType σ Ty V ε)
    (f : FieldInfo α Ty V) (p : Unpacker σ Ty) (obj : α) (c : Int) (e : ε)
    (h : f.Evaluate obj = true) (hv : (D.Deserialize f.ValueType c p.state).2 = Except.error e) :
    ClassDeserializerSelect.DeserializeAndSet D f p obj c =
      (⟨(D.Deserialize f.ValueType c p.state).1,
          p.calls ++ [UnpackCall.Deserialize f.ValueType c]⟩, Except.error e) := by
  simp [ClassDeserializerSelect.DeserializeAndSet, h, Unpacker.Deserialize, hv]

/-- Running `Func` over `pre ++ post` is running it over `pre` and, when that returns, over
`post` with the index advanced by the length of `pre`. -/
theorem Func_append (D : DeserializerClass SerializedType σ Ty V ε)
    (pre post : TypeSerializationInfo α Ty V) (p : Unpacker σ Ty) (obj : α) (c : Int) :
    ClassDeserializerFunctor.Func D (pre ++ post) p obj c =
      match ClassDeserializerFunctor.Func D pre p obj c with
      | (p1, Except.ok obj1) => ClassDeserializerFunctor.Func D post p1 obj1 (c + pre.length)
      | (p1, Except.error e) => (p1, Except.error e) := by
  induction pre generalizing p obj c with
  | nil => simp [ClassDeserializerFunctor.Func]
  | cons f rest ih =>
    simp only [List.cons_append, ClassDeserializerFunctor.Func, List.length_cons]
    rcases hd : ClassDeserializerSelect.DeserializeAndSet D f p obj c with ⟨p1, r⟩
    cases r with
    | error e => simp
    | ok obj1 =>
      have hc : c + 1 + (rest.length : Int) = c + ((rest.length + 1 : Nat) : Int) := by
        push_cast; ring
      show ClassDeserializerFunctor.Func D (rest ++ post) p1 obj1 (c + 1) = _
      rw [ih, hc]

/-- Every call a run of `Func` adds to the record is a `Deserialize` whose index lies between
the starting index and the starting index plus the number of fields. -/
theorem Func_calls_mem (D : DeserializerClass SerializedType σ Ty V ε)
    (S : TypeSerializationInfo α Ty V) (p : Unpacker σ Ty) (obj : α) (c : Int)
    (call : UnpackCall Ty)
    (h : call ∈ (ClassDeserializerFunctor.Func D S p obj c).1.calls) :
    call ∈ p.calls ∨
      ∃ ty idx, call = UnpackCall.Deserialize ty idx ∧ c ≤ idx ∧ idx < c + S.length := by
  induction S generalizing p obj c with
  | nil => left; simpa [ClassDeserializerFunctor.Func] using h
  | cons f rest ih =>
    simp only [ClassDeserializerFunctor.Func] at h
    have hstep : ∀ q, q ∈ (ClassDeserializerSelect.DeserializeAndSet D f p obj c).1.calls →
        q ∈ p.calls ∨ q = UnpackCall.Deserialize f.ValueType c := by
      intro q hq
      unfold ClassDeserializerSelect.DeserializeAndSet at hq
      by_cases hev : f.Evaluate obj = true
      · simp only [hev, if_true, Unpacker.Deserialize] at hq
        rcases hres : (D.Deserialize f.ValueType c p.state).2 with e | v <;>
          · simp only [hres] at hq
            simpa using hq
      · simp only [hev] at hq
        left; simpa using hq
    rcases hd : ClassDeserializerSelect.DeserializeAndSet D f p obj c with ⟨p1, r⟩
    rw [hd] at h hstep
    have hlen : ((f :: rest).length : Int) = (rest.length : Int) + 1 := by
      simp
    cases r with
    | error e =>
      rcases hstep call h with h1 | h1
      · exact Or.inl h1
      · exact Or.inr ⟨f.ValueType, c, h1, le_refl c, by rw [hlen]; omega⟩
    | ok obj1 =>
      rcases ih p1 obj1 (c + 1) h with h1 | ⟨ty, idx, h1, h2, h3⟩
      · rcases hstep call h1 with h4 | h4
        · exact Or.inl h4
        · exact Or.inr ⟨f.ValueType, c, h4, le_refl c, by rw [hlen]; omega⟩
      · exact Or.inr ⟨ty, idx, h1, by omega, by rw [hlen]; omega⟩

/-- A run of `Func` only appends to the record of calls. -/
theorem Func_calls_append (D : DeserializerClass SerializedType σ Ty V ε)
    (S : TypeSerializationInfo α Ty V) (p : Unpacker σ Ty) (obj : α) (c : Int) :
    ∃ added, (ClassDeserializerFunctor.Func D S p obj c).1.calls = p.calls ++ added := by
  induction S generalizing p obj c with
  | nil => exact ⟨[], by simp [ClassDeserializerFunctor.Func]⟩
  | cons f rest ih =>
    simp only [ClassDeserializerFunctor.Func]
    have hstep : ∃ added, (ClassDeserializerSelect.DeserializeAndSet D f p obj c).1.calls =
        p.calls ++ added := by
      unfold ClassDeserializerSelect.DeserializeAndSet
      by_cases hev : f.Evaluate obj = true
      · simp only [hev, if_true, Unpacker.Deserialize]
        rcases hres : (D.Deserialize f.ValueType c p.state).2 with e | v <;>
          exact ⟨[UnpackCall.Deserialize f.ValueType c], rfl⟩
      · simp only [hev]
        exact ⟨[], by simp⟩
    rcases hd : ClassDeserializerSelect.DeserializeAndSet D f p obj c with ⟨p1, r⟩
    rw [hd] at hstep
    obtain ⟨a1, ha1⟩ := hstep
    cases r with
    | error e => exact ⟨a1, ha1⟩
    | ok obj1 =>
      obtain ⟨a2, ha2⟩ := ih p1 obj1 (c + 1)
      exact ⟨a1 ++ a2, by rw [ha2, ha1, List.append_assoc]⟩

/-- A run of `Func` never calls `Finalize`. -/
theorem Func_countP_isFinalize (D : DeserializerClass SerializedType σ Ty V ε)
    (S : TypeSerializationInfo α Ty V) (p : Unpacker σ Ty) (obj : α) (c : Int) :
    (ClassDeserializerFunctor.Func D S p obj c).1.calls.countP UnpackCall.isFinalize =
      p.calls.countP UnpackCall.isFinalize := by
  induction S generalizing p obj c with
  | nil => simp [ClassDeserializerFunctor.Func]
  | cons f rest ih =>
    simp only [ClassDeserializerFunctor.Func]
    have hstep : (ClassDeserializerSelect.DeserializeAndSet D f p obj c).1.calls.countP
        UnpackCall.isFinalize = p.calls.countP UnpackCall.isFinalize := by
      unfold ClassDeserializerSelect.DeserializeAndSet
      by_cases hev : f.Evaluate obj = true
      · simp only [hev, if_true, Unpacker.Deserialize]
        rcases hres : (D.Deserialize f.ValueType c p.state).2 with e | v <;>
          simp [UnpackCall.isFinalize]
      · simp only [hev]
        simp
    rcases hd : ClassDeserializerSelect.DeserializeAndSet D f p obj c with ⟨p1, r⟩
    rw [hd] at hstep
    cases r with
    | error e => exact hstep
    | ok obj1 => simpa [hstep] using ih p1 obj1 (c + 1)

/-- What a getter reads is unchanged by a run of `Func` over fields whose setters do not
affect it. -/
theorem Func_frame (D : DeserializerClass SerializedType σ Ty V ε)
    (S : TypeSerializationInfo α Ty V) (p : Unpacker σ Ty) (obj r : α) (c : Int)
    (get : α → V) (hframe : ∀ g ∈ S, ∀ (o : α) (v : V), get (g.Set o v) = get o)
    (hr : (ClassDeserializerFunctor.Func D S p obj c).2 = Except.ok r) :
    get r = get obj := by
  induction S generalizing p obj c with
  | nil =>
    simp only [ClassDeserializerFunctor.Func, Except.ok.injEq] at hr
    rw [hr]
  | cons f rest ih =>
    simp only [ClassDeserializerFunctor.Func] at hr
    have hstep : ∀ o1, (ClassDeserializerSelect.DeserializeAndSet D f p obj c).2 = Except.ok o1 →
        get o1 = get obj := by
      intro o1 ho1
      unfold ClassDeserializerSelect.DeserializeAndSet at ho1
      by_cases hev : f.Evaluate obj = true
      · simp only [hev, if_true, Unpacker.Deserialize] at ho1
        rcases hres : (D.Deserialize f.ValueType c p.state).2 with e | v
        · simp [hres] at ho1
        · simp only [hres, Except.ok.injEq] at ho1
          rw [← ho1]
          exact hframe f (List.mem_cons_self f rest) obj v
      · simp only [hev, Except.ok.injEq] at ho1
        simp at ho1
        rw [ho1]
    rcases hd : ClassDeserializerSelect.DeserializeAndSet D f p obj c with ⟨p1, r1⟩
    rw [hd] at hr hstep
    cases r1 with
    | error e => simp at hr
    | ok obj1 =>
      have h1 := ih p1 obj1 (c + 1) (fun g hg => hframe g (List.mem_cons_of_mem f hg)) hr
      rw [h1]
      exact hstep obj1 rfl

/-- The record of calls is observation only: a run of `Func` on a session with any earlier
record returns the same result and the same backend state as on a blank record, and its record
is the earlier one followed by the calls of the run. -/
theorem Func_record (D : DeserializerClass SerializedType σ Ty V ε)
    (S : TypeSerializationInfo α Ty V) (s : σ) (cs : List (UnpackCall Ty)) (obj : α) (c : Int) :
    ClassDeserializerFunctor.Func D S ⟨s, cs⟩ obj c =
      (⟨(ClassDeserializerFunctor.Func D S ⟨s, []⟩ obj c).1.state,
          cs ++ (ClassDeserializerFunctor.Func D S ⟨s, []⟩ obj c).1.calls⟩,
        (ClassDeserializerFunctor.Func D S ⟨s, []⟩ obj c).2) := by
  induction S generalizing s cs obj c with
  | nil => simp [ClassDeserializerFunctor.Func]
  | cons f rest ih =>
    by_cases hev : f.Evaluate obj = true
    · rcases hres : (D.Deserialize f.ValueType c s).2 with e | v
      · simp [ClassDeserializerFunctor.Func,
          DeserializeAndSet_error D f ⟨s, cs⟩ obj c e hev hres,
          DeserializeAndSet_error D f ⟨s, []⟩ obj c e hev hres]
      · simp only [ClassDeserializerFunctor.Func,
          DeserializeAndSet_ok D f ⟨s, cs⟩ obj c v hev hres,
          DeserializeAndSet_ok D f ⟨s, []⟩ obj c v hev hres]
        rw [ih _ (cs ++ _), ih _ ([] ++ _)]
        simp
    · have hev2 : f.Evaluate obj = false := by simpa using hev
      simp only [ClassDeserializerFunctor.Func, DeserializeAndSet_skip D f _ obj c hev2]
      rw [ih]

/-- When the fields before `f` have been processed and the predicate of `f` is false, the run
continues with the fields after `f` on the same session and instance, one index further. -/
theorem Func_skip_at (D : DeserializerClass SerializedType σ Ty V ε)
    (pre post : TypeSerializationInfo α Ty V) (f : FieldInfo α Ty V)
    (p p1 : Unpacker σ Ty) (obj obj1 : α) (c : Int)
    (hpre : ClassDeserializerFunctor.Func D pre p obj c = (p1, Except.ok obj1))
    (hev : f.Evaluate obj1 = false) :
    ClassDeserializerFunctor.Func D (pre ++ f :: post) p obj c =
      ClassDeserializerFunctor.Func D post p1 obj1 (c + pre.length + 1) := by
  rw [Func_append, hpre]
  simp only [ClassDeserializerFunctor.Func, DeserializeAndSet_skip D f p1 obj1 _ hev]

/-- When the fields before `f` have been processed and the predicate of `f` holds, the next
step of the run is the backend call `Deserialize<ValueType>(c + |pre|)`. -/
theorem Func_read_at (D : DeserializerClass SerializedType σ Ty V ε)
    (pre post : TypeSerializationInfo α Ty V) (f : FieldInfo α Ty V)
    (p p1 : Unpacker σ Ty) (obj obj1 : α) (c : Int)
    (hpre : ClassDeserializerFunctor.Func D pre p obj c = (p1, Except.ok obj1))
    (hev : f.Evaluate obj1 = true) :
    ClassDeserializerFunctor.Func D (pre ++ f :: post) p obj c =
      match (D.Deserialize f.ValueType (c + pre.length) p1.state).2 with
      | Except.ok v =>
        ClassDeserializerFunctor.Func D post
          ⟨(D.Deserialize f.ValueType (c + pre.length) p1.state).1,
            p1.calls ++ [UnpackCall.Deserialize f.ValueType (c + pre.length)]⟩
          (f.Set obj1 v) (c + pre.length + 1)
      | Except.error e =>
        (⟨(D.Deserialize f.ValueType (c + pre.length) p1.state).1,
            p1.calls ++ [UnpackCall.Deserialize f.ValueType (c + pre.length)]⟩,
          Except.error e) := by
  rw [Func_append, hpre]
  rcases hres : (D.Deserialize f.ValueType (c + pre.length) p1.state).2 with e | v
  · simp [ClassDeserializerFunctor.Func, DeserializeAndSet_error D f p1 obj1 _ e hev hres]
  · simp [ClassDeserializerFunctor.Func, DeserializeAndSet_ok D f p1 obj1 _ v hev hres]

/-- The calls of the run over the first `k` fields are the calls `callAt` of the positions
below `k`, in increasing order of position. -/
theorem Func_take_calls (D : DeserializerClass SerializedType σ Ty V ε)
    (S : TypeSerializationInfo α Ty V) (s : σ) (obj : α) (k : Nat) (hk : k ≤ S.length) :
    (ClassDeserializerFunctor.Func D (S.take k) ⟨s, []⟩ obj 0).1.calls =
      (List.range k).filterMap (callAt D S s obj) := by
  induction k with
  | zero => simp [ClassDeserializerFunctor.Func]
  | succ k ih =>
    have hkl : k < S.length := hk
    have ih1 := ih (Nat.le_of_lt hkl)
    have htake : S.take (k + 1) = S.take k ++ S.get ⟨k, hkl⟩ :: [] := by
      rw [← List.take_concat_get S k hkl, List.concat_eq_append]
      rfl
    have hlen : (S.take k).length = k := by
      rw [List.length_take]; omega
    have hget : S.get? k = some (S.get ⟨k, hkl⟩) := List.get?_eq_get hkl
    rw [List.range_succ, List.filterMap_append, ← ih1, htake]
    rcases hrun : ClassDeserializerFunctor.Func D (S.take k) ⟨s, []⟩ obj 0 with ⟨p1, res⟩
    cases res with
    | error e =>
      have hcall : callAt D S s obj k = none := by
        unfold callAt predicateHeldAt
        rw [hget, hrun]
        simp
      rw [Func_append, hrun]
      simp [hcall]
    | ok o1 =>
      by_cases hev : (S.get ⟨k, hkl⟩).Evaluate o1 = true
      · have hcall : callAt D S s obj k =
            some (UnpackCall.Deserialize (S.get ⟨k, hkl⟩).ValueType (k : Int)) := by
          unfold callAt predicateHeldAt
          rw [hget, hrun]
          simp only [hev, if_true]
        have hread := Func_read_at D (S.take k) [] (S.get ⟨k, hkl⟩) ⟨s, []⟩ p1 obj o1 0 hrun hev
        simp only [zero_add, hlen, ClassDeserializerFunctor.Func] at hread
        rw [hread]
        rcases hres : (D.Deserialize (S.get ⟨k, hkl⟩).ValueType (k : Int) p1.state).2
          with e | v <;> simp [hcall]
      · have hev2 : (S.get ⟨k, hkl⟩).Evaluate o1 = false := by simpa using hev
        have hcall : callAt D S s obj k = none := by
          unfold callAt predicateHeldAt
          rw [hget, hrun]
          simp only [hev2]
          rfl
        have hskip := Func_skip_at D (S.take k) [] (S.get ⟨k, hkl⟩) ⟨s, []⟩ p1 obj o1 0 hrun hev2
        simp only [ClassDeserializerFunctor.Func] at hskip
        rw [hskip]
        simp [hcall]

end DeserializationLemmas

/-! ## Basic facts about the serialization run -/

section SerializationLemmas

variable {SerializedType π Ty V ε α : Type}

theorem packedValues_append (xs ys : List (PackCall Ty V)) :
    packedValues (xs ++ ys) = packedValues xs ++ packedValues ys := by
  induction xs with
  | nil => rfl
  | cons x rest ih => cases x <;> simp [packedValues, ih]

theorem packedValues_map_Pack (vs : List (Ty × V)) :
    packedValues (vs.map fun tv => PackCall.Pack tv.1 tv.2) = vs := by
  induction vs with
  | nil => rfl
  | cons x rest ih => simp [packedValues, ih]

/-- The calls of a run of the pack functor are the earlier ones followed by one `Pack` per
value handed in, in order, up to and including the first one that throws; all of them when the
run returns. -/
theorem SerializerFunctor_calls (P : SerializerClass SerializedType π Ty V ε)
    (p : Packer π Ty V) (vs : List (Ty × V)) :
    ∃ k, k ≤ vs.length ∧
      (SerializerFunctor.Func P p vs).1.calls =
        p.calls ++ (vs.take k).map (fun tv => PackCall.Pack tv.1 tv.2) ∧
      ((SerializerFunctor.Func P p vs).2 = Except.ok () → k = vs.length) := by
  induction vs generalizing p with
  | nil => exact ⟨0, le_refl 0, by simp [SerializerFunctor.Func], fun _ => rfl⟩
  | cons x rest ih =>
    obtain ⟨ty, v⟩ := x
    simp only [SerializerFunctor.Func, Packer.Pack]
    rcases hres : (P.Pack ty v p.state).2 with e | u
    · exact ⟨1, by simp, by simp, by simp⟩
    · obtain ⟨k, hk, hcalls, hall⟩ := ih ⟨(P.Pack ty v p.state).1, p.calls ++ [PackCall.Pack ty v]⟩
      refine ⟨k + 1, by simpa using hk, ?_, ?_⟩
      · simp only [hcalls]
        simp
      · intro h
        simpa using hall h

/-- The pack functor never calls `EndPack`. -/
theorem SerializerFunctor_countP_isEndPack (P : SerializerClass SerializedType π Ty V ε)
    (p : Packer π Ty V) (vs : List (Ty × V)) :
    (SerializerFunctor.Func P p vs).1.calls.countP PackCall.isEndPack =
      p.calls.countP PackCall.isEndPack := by
  obtain ⟨k, _, hcalls, _⟩ := SerializerFunctor_calls P p vs
  rw [hcalls, List.countP_append]
  have : ((vs.take k).map fun tv => PackCall.Pack tv.1 tv.2).countP
      (PackCall.isEndPack : PackCall Ty V → Bool) = 0 := by
    rw [List.countP_eq_zero]
    intro c hc
    simp only [List.mem_map] at hc
    obtain ⟨tv, _, rfl⟩ := hc
    simp [PackCall.isEndPack]
  rw [this, Nat.add_zero]

/-- When `ClassSerializer::Serialize` returns, the values handed to `Pack` were the values of
the getters, in schema order. -/
theorem Serialize_packedValues (P : SerializerClass SerializedType π Ty V ε)
    (S : TypeSerializationInfo α Ty V) (ptr : α) (payload : SerializedType)
    (h : (ClassSerializer.Serialize P S ptr).2 = Except.ok payload) :
    packedValues (ClassSerializer.Serialize P S ptr).1.calls =
      S.map fun f => (f.ValueType, f.Get ptr) := by
  obtain ⟨k, _, hcalls, hall⟩ := SerializerFunctor_calls P ⟨P.ctor, []⟩
    (S.map fun f => (f.ValueType, f.Get ptr))
  rcases hrun : SerializerFunctor.Func P ⟨P.ctor, []⟩ (S.map fun f => (f.ValueType, f.Get ptr))
    with ⟨p1, res⟩
  rw [hrun] at hcalls hall
  simp only [ClassSerializer.Serialize, hrun] at h ⊢
  cases res with
  | error e => simp at h
  | ok u =>
    have hk := hall rfl
    simp only [Packer.EndPack]
    simp only at hcalls
    rw [hcalls, hk, List.take_length, List.nil_append, packedValues_append,
      packedValues_map_Pack]
    simp [packedValues]

end SerializationLemmas

/-! ## Round trip through a backend that returns what was packed -/

section RoundTripLemmas

variable {SerializedType σ Ty V ε α : Type}

/-- Core of the round trip. On an unpacker that answers slot `i` with the value of getter `i`
on `I`, over a lawful schema, and with every predicate true when its turn comes, the run over
the first `k` fields returns, and the first `k` getters read on the result what they read on
`I`. -/
theorem Func_round_trip (D : DeserializerClass SerializedType σ Ty V ε)
    (S : TypeSerializationInfo α Ty V) (s0 : σ) (I d : α)
    (hlaw : LawfulSchema S)
    (hback : ∀ s, D.Reach s0 s → ∀ (i : Nat) (h : i < S.length),
      (D.Deserialize (S.get ⟨i, h⟩).ValueType (i : Int) s).2 = Except.ok ((S.get ⟨i, h⟩).Get I))
    (hpred : ∀ (k : Nat) (hk : k < S.length) (o : α),
      (ClassDeserializerFunctor.Func D (S.take k) ⟨s0, []⟩ d 0).2 = Except.ok o →
        (S.get ⟨k, hk⟩).Evaluate o = true)
    (k : Nat) (hk : k ≤ S.length) :
    ∃ u r, ClassDeserializerFunctor.Func D (S.take k) ⟨s0, []⟩ d 0 = (u, Except.ok r) ∧
      D.Reach s0 u.state ∧
      ∀ (j : Nat) (hj : j < S.length), j < k → (S.get ⟨j, hj⟩).Get r = (S.get ⟨j, hj⟩).Get I := by
  induction k with
  | zero =>
    exact ⟨⟨s0, []⟩, d, by simp [ClassDeserializerFunctor.Func],
      DeserializerClass.Reach.start, fun j _ hj => absurd hj (Nat.not_lt_zero j)⟩
  | succ k ih =>
    have hkl : k < S.length := hk
    obtain ⟨u, r, hrun, hreach, hgets⟩ := ih (Nat.le_of_lt hkl)
    have hev : (S.get ⟨k, hkl⟩).Evaluate r = true := hpred k hkl r (by rw [hrun])
    have hval := hback u.state hreach k hkl
    have htake : S.take (k + 1) = S.take k ++ S.get ⟨k, hkl⟩ :: [] := by
      rw [← List.take_concat_get S k hkl, List.concat_eq_append]
      rfl
    have hlen : (S.take k).length = k := by
      rw [List.length_take]; omega
    have hread := Func_read_at D (S.take k) [] (S.get ⟨k, hkl⟩) ⟨s0, []⟩ u d r 0 hrun hev
    simp only [zero_add, hlen, hval, ClassDeserializerFunctor.Func] at hread
    refine ⟨_, _, by rw [htake]; exact hread, ?_, ?_⟩
    · exact DeserializerClass.Reach.step _ _ hreach
    · intro j hj hjk
      have h := hlaw k j hkl hj r I
      rw [h]
      by_cases hkj : k = j
      · subst hkj; simp
      · simp only [hkj, if_false]
        exact hgets j hj (by omega)

end RoundTripLemmas

section RoundTripThroughSerialize

variable {SerializedType σ π Ty V ε α : Type}

/-- Round trip through `Serialize` and `Deserialize`, by position: over a lawful schema, when
`Serialize` returns `payload`, the unpacker built from it returns what was packed, and every
predicate is true when its turn comes, `Deserialize` returns and every getter reads on the
result what it read on the serialized instance. -/
theorem Deserialize_Serialize_get [Inhabited α] (P : SerializerClass SerializedType π Ty V ε)
    (D : DeserializerClass SerializedType σ Ty V ε) (S : TypeSerializationInfo α Ty V)
    (I : α) (payload : SerializedType) (finalizePackedObject : Bool)
    (hlaw : LawfulSchema S)
    (hser : (ClassSerializer.Serialize P S I).2 = Except.ok payload)
    (hback : D.ReturnsPacked payload (packedValues (ClassSerializer.Serialize P S I).1.calls))
    (hpred : ∀ (k : Nat) (hk : k < S.length) (o : α),
      (ClassDeserializerFunctor.Func D (S.take k) ⟨D.ctor payload, []⟩ (default : α) 0).2 =
          Except.ok o →
        (S.get ⟨k, hk⟩).Evaluate o = true) :
    ∃ r, (ClassDeserializer.Deserialize D S payload finalizePackedObject).2 = Except.ok r ∧
      ∀ (j : Nat) (hj : j < S.length), (S.get ⟨j, hj⟩).Get r = (S.get ⟨j, hj⟩).Get I := by
  have hpacked := Serialize_packedValues P S I payload hser
  have hback2 : ∀ s, D.Reach (D.ctor payload) s → ∀ (i : Nat) (h : i < S.length),
      (D.Deserialize (S.get ⟨i, h⟩).ValueType (i : Int) s).2 =
        Except.ok ((S.get ⟨i, h⟩).Get I) := by
    intro s hs i h
    rw [hpacked] at hback
    have := hback s hs i (by simpa using h)
    simpa using this
  obtain ⟨u, r, hrun, _, hgets⟩ :=
    Func_round_trip D S (D.ctor payload) I (default : α) hlaw hback2 hpred S.length (le_refl _)
  rw [List.take_length] at hrun
  refine ⟨r, ?_, fun j hj => hgets j hj hj⟩
  cases finalizePackedObject <;> simp [ClassDeserializer.Deserialize, hrun]

end RoundTripThroughSerialize

/-! ## Facts about the list-backed wire format -/

namespace Demo

theorem listUnpacker_reach (s0 s : List Value) (h : listUnpacker.Reach s0 s) : s = s0 := by
  induction h with
  | start => rfl
  | step ty idx _ ih => simpa [listUnpacker] using ih

/-- The list unpacker returns what was packed, provided each value was packed under its own
type. -/
theorem listUnpacker_returnsPacked (packed : List (Ty × Value))
    (htyped : ∀ tv ∈ packed, tv.2.ty = tv.1) :
    listUnpacker.ReturnsPacked (packed.map Prod.snd) packed := by
  intro s hs i h
  have hs0 : s = packed.map Prod.snd := listUnpacker_reach _ _ hs
  subst hs0
  have hty := htyped (packed.get ⟨i, h⟩) (List.get_mem packed i h)
  have hget : (packed.map Prod.snd).get? i = some (packed.get ⟨i, h⟩).2 := by
    simp [List.get?_eq_getElem?, List.getElem?_map, List.getElem?_eq_getElem h]
  simp only [listUnpacker, Int.toNat_ofNat, hget, hty, if_true]
  simp

theorem Reading_schema_lawful : LawfulSchema Reading.schema := by
  intro i j hi hj o x
  have hi2 : i < 2 := hi
  have hj2 : j < 2 := hj
  interval_cases i <;> interval_cases j <;> rfl

theorem Person_schema_lawful : LawfulSchema Person.schema := by
  intro i j hi hj o x
  have hi3 : i < 3 := hi
  have hj3 : j < 3 := hj
  interval_cases i <;> interval_cases j <;> rfl

end Demo

/-! ## The claims about deserialization -/

section DeserializationClaims

variable {SerializedType σ Ty V ε α : Type}

/-- C2 (positional invariance under skip). Let the schema be `pre ++ f :: post`, so that `f`
sits at position `|pre|`, and let the run of `Func` from index `0` over the fields before `f`
have returned (whichever of them were skipped) with the predicate of `f` true on the instance
at that point. Then the next thing the run does is the backend call
`Deserialize<ValueType_f>(|pre|)`: the whole run is that call followed, when it returns `v`,
by the run over `post` on `Set_f(obj, v)` from index `|pre| + 1`, and the record of calls is
the record after `pre` followed by that call and the later ones. -/
theorem C2_positional_invariance_under_skip (D : DeserializerClass SerializedType σ Ty V ε)
    (pre post : TypeSerializationInfo α Ty V) (f : FieldInfo α Ty V)
    (p p1 : Unpacker σ Ty) (obj obj1 : α)
    (hpre : ClassDeserializerFunctor.Func D pre p obj 0 = (p1, Except.ok obj1))
    (hev : f.Evaluate obj1 = true) :
    (ClassDeserializerFunctor.Func D (pre ++ f :: post) p obj 0 =
      match (D.Deserialize f.ValueType pre.length p1.state).2 with
      | Except.ok v =>
        ClassDeserializerFunctor.Func D post
          ⟨(D.Deserialize f.ValueType pre.length p1.state).1,
            p1.calls ++ [UnpackCall.Deserialize f.ValueType pre.length]⟩
          (f.Set obj1 v) (pre.length + 1)
      | Except.error e =>
        (⟨(D.Deserialize f.ValueType pre.length p1.state).1,
            p1.calls ++ [UnpackCall.Deserialize f.ValueType pre.length]⟩, Except.error e)) ∧
    ∃ later, (ClassDeserializerFunctor.Func D (pre ++ f :: post) p obj 0).1.calls =
      p1.calls ++ UnpackCall.Deserialize f.ValueType pre.length :: later := by
  have h := Func_read_at D pre post f p p1 obj obj1 0 hpre hev
  simp only [zero_add] at h
  refine ⟨h, ?_⟩
  rw [h]
  rcases hres : (D.Deserialize f.ValueType pre.length p1.state).2 with e | v
  · exact ⟨[], rfl⟩
  · obtain ⟨added, ha⟩ := Func_calls_append D post
      ⟨(D.Deserialize f.ValueType pre.length p1.state).1,
        p1.calls ++ [UnpackCall.Deserialize f.ValueType pre.length]⟩
      (f.Set obj1 v) (pre.length + 1)
    exact ⟨added, by simp only [ha, List.append_assoc, List.singleton_append]⟩

/-- C2 at the schema `{value, count}` over the payload `[5, 7]`: `value` (position 0) is
skipped, and `count` (position 1) is still read from slot 1. -/
theorem C2_positional_invariance_under_skip_witness :
    ∃ later, (ClassDeserializerFunctor.Func Demo.listUnpacker
        ([Demo.Reading.valueField] ++ Demo.Reading.countField :: [])
        ⟨[Demo.Value.int 5, Demo.Value.int 7], []⟩ (default : Demo.Reading) 0).1.calls =
      [] ++ UnpackCall.Deserialize Demo.Ty.int 1 :: later :=
  (C2_positional_invariance_under_skip Demo.listUnpacker [Demo.Reading.valueField] []
    Demo.Reading.countField ⟨[Demo.Value.int 5, Demo.Value.int 7], []⟩
    ⟨[Demo.Value.int 5, Demo.Value.int 7], []⟩ default default rfl rfl).2

/-- C3 (presence-predicate skip). Let the schema be `pre ++ f :: post` and let
`ClassDeserializer::Deserialize` return `r`. If the predicate of `f` was false when its turn
came (on the instance left by the fields before it), and the setters of the other fields do not
change what the getter of `f` reads, then `f` reads the same in `r` as in the
default-constructed instance, and the payload slot of `f` was never read: no
`Deserialize<T>(|pre|)` call was made on the backend. -/
theorem C3_presence_predicate_skip [Inhabited α] (D : DeserializerClass SerializedType σ Ty V ε)
    (pre post : TypeSerializationInfo α Ty V) (f : FieldInfo α Ty V)
    (payload : SerializedType) (finalizePackedObject : Bool)
    (p1 : Unpacker σ Ty) (obj1 r : α)
    (hpre : ClassDeserializerFunctor.Func D pre ⟨D.ctor payload, []⟩ (default : α) 0 =
      (p1, Except.ok obj1))
    (hev : f.Evaluate obj1 = false)
    (hframe : ∀ g ∈ pre ++ post, ∀ (o : α) (v : V), f.Get (g.Set o v) = f.Get o)
    (hret : (ClassDeserializer.Deserialize D (pre ++ f :: post) payload
      finalizePackedObject).2 = Except.ok r) :
    f.Get r = f.Get (default : α) ∧
    ∀ ty, UnpackCall.Deserialize ty pre.length ∉
      (ClassDeserializer.Deserialize D (pre ++ f :: post) payload finalizePackedObject).1.calls := by
  have hskip := Func_skip_at D pre post f ⟨D.ctor payload, []⟩ p1 (default : α) obj1 0 hpre hev
  simp only [zero_add] at hskip
  have hobj1 : f.Get obj1 = f.Get (default : α) :=
    Func_frame D pre ⟨D.ctor payload, []⟩ default obj1 0 f.Get
      (fun g hg => hframe g (List.mem_append_left post hg)) (by rw [hpre])
  have hp1 : ∀ ty, UnpackCall.Deserialize ty pre.length ∉ p1.calls := by
    intro ty hmem
    have h := Func_calls_mem D pre ⟨D.ctor payload, []⟩ (default : α) 0
      (UnpackCall.Deserialize ty pre.length) (by rw [hpre]; exact hmem)
    rcases h with h | ⟨ty1, idx, h1, _, h3⟩
    · simp at h
    · simp only [UnpackCall.Deserialize.injEq] at h1
      omega
  have hpost : ∀ ty, UnpackCall.Deserialize ty pre.length ∉
      (ClassDeserializerFunctor.Func D post p1 obj1 (pre.length + 1)).1.calls := by
    intro ty hmem
    rcases Func_calls_mem D post p1 obj1 (pre.length + 1) _ hmem with h | ⟨ty1, idx, h1, h2, _⟩
    · exact hp1 ty h
    · simp only [UnpackCall.Deserialize.injEq] at h1
      omega
  simp only [ClassDeserializer.Deserialize, hskip] at hret ⊢
  rcases hrun : ClassDeserializerFunctor.Func D post p1 obj1 (pre.length + 1) with ⟨u, res⟩
  rw [hrun] at hret hpost
  cases res with
  | error e => simp at hret
  | ok ret =>
    have hrr : ret = r := by
      cases finalizePackedObject <;> simpa using hret
    subst hrr
    have hget : f.Get ret = f.Get obj1 :=
      Func_frame D post p1 obj1 ret (pre.length + 1) f.Get
        (fun g hg => hframe g (List.mem_append_right pre hg)) (by rw [hrun])
    refine ⟨by rw [hget, hobj1], ?_⟩
    intro ty
    cases finalizePackedObject
    · simpa using hpost ty
    · simpa [Unpacker.Finalize] using hpost ty

/-- C3 at the schema `{value, count}` over the payload `[5, 7]`: the predicate of `value` is
false on the default-constructed instance, so `value` stays `0` although slot 0 holds `5`. -/
theorem C3_presence_predicate_skip_witness :
    Demo.Reading.valueField.Get (⟨0, 7⟩ : Demo.Reading) =
      Demo.Reading.valueField.Get (default : Demo.Reading) ∧
    ∀ ty, UnpackCall.Deserialize ty (([] : List (FieldInfo Demo.Reading Demo.Ty Demo.Value)).length) ∉
      (ClassDeserializer.Deserialize (α := Demo.Reading) Demo.listUnpacker
        ([] ++ Demo.Reading.valueField :: [Demo.Reading.countField])
        [Demo.Value.int 5, Demo.Value.int 7] true).1.calls :=
  C3_presence_predicate_skip Demo.listUnpacker [] [Demo.Reading.countField]
    Demo.Reading.valueField [Demo.Value.int 5, Demo.Value.int 7] true
    ⟨[Demo.Value.int 5, Demo.Value.int 7], []⟩ default ⟨0, 7⟩ rfl rfl
    (by
      intro g hg o v
      simp only [List.nil_append, List.mem_singleton] at hg
      subst hg
      cases v <;> rfl)
    rfl

/-- C6 (abort on unpack failure). Let the schema be `pre ++ f :: post`. If the fields before
`f` have been processed, the predicate of `f` holds, and the backend call
`Deserialize<ValueType_f>(|pre|)` throws `e`, then `ClassDeserializer::Deserialize` throws that
same `e` and returns no instance, and the last call made on the backend is the failing one.
The outcome does not mention `post`: no later field is evaluated, unpacked or set. -/
theorem C6_abort_on_unpack_failure [Inhabited α] (D : DeserializerClass SerializedType σ Ty V ε)
    (pre post : TypeSerializationInfo α Ty V) (f : FieldInfo α Ty V)
    (payload : SerializedType) (finalizePackedObject : Bool)
    (p1 : Unpacker σ Ty) (obj1 : α) (e : ε)
    (hpre : ClassDeserializerFunctor.Func D pre ⟨D.ctor payload, []⟩ (default : α) 0 =
      (p1, Except.ok obj1))
    (hev : f.Evaluate obj1 = true)
    (hfail : (D.Deserialize f.ValueType pre.length p1.state).2 = Except.error e) :
    ClassDeserializer.Deserialize D (pre ++ f :: post) payload finalizePackedObject =
      (⟨(D.Deserialize f.ValueType pre.length p1.state).1,
          p1.calls ++ [UnpackCall.Deserialize f.ValueType pre.length]⟩, Except.error e) := by
  have h := Func_read_at D pre post f ⟨D.ctor payload, []⟩ p1 (default : α) obj1 0 hpre hev
  simp only [zero_add, hfail] at h
  simp only [ClassDeserializer.Deserialize, h]

/-- C6 at the schema `{id, name, email}` over the one-slot payload `[1]`: unpacking `name`
from slot 1 throws `outOfRange 1`, which is what `Deserialize` throws; `email` is not
touched. -/
theorem C6_abort_on_unpack_failure_witness :
    ClassDeserializer.Deserialize (α := Demo.Person) Demo.listUnpacker
        ([Demo.Person.idField] ++ Demo.Person.nameField :: [Demo.Person.emailField])
        [Demo.Value.int 1] true =
      (⟨[Demo.Value.int 1],
          [UnpackCall.Deserialize Demo.Ty.int 0] ++ [UnpackCall.Deserialize Demo.Ty.string 1]⟩,
        Except.error (Demo.UnpackError.outOfRange 1)) :=
  C6_abort_on_unpack_failure Demo.listUnpacker [Demo.Person.idField] [Demo.Person.emailField]
    Demo.Person.nameField [Demo.Value.int 1] true
    ⟨[Demo.Value.int 1], [UnpackCall.Deserialize Demo.Ty.int 0]⟩ ⟨1, "", "unset"⟩
    (Demo.UnpackError.outOfRange 1) rfl rfl rfl

/-- C7 (finalize flag). If no unpack fails on the payload (the run over the fields returns
`ret`), then `Deserialize(p, true)`, `Deserialize(p, false)` and `Deserialize(openSession)` on
a session in the state of a freshly constructed unpacker all return `ret`; with `true` the
calls on the backend are those of `false` followed by one `Finalize`, which is the only
`Finalize` in the record; with `false` there is none; and the open-session overload adds no
`Finalize` to the record of the session it is given. -/
theorem C7_finalize_flag [Inhabited α] (D : DeserializerClass SerializedType σ Ty V ε)
    (S : TypeSerializationInfo α Ty V) (payload : SerializedType) (ret : α)
    (hok : (ClassDeserializerFunctor.Func D S ⟨D.ctor payload, []⟩ (default : α) 0).2 =
      Except.ok ret) :
    (ClassDeserializer.Deserialize D S payload true).2 = Except.ok ret ∧
    (ClassDeserializer.Deserialize D S payload false).2 = Except.ok ret ∧
    (∀ cs, (ClassDeserializer.DeserializeFrom D S ⟨D.ctor payload, cs⟩).2 = Except.ok ret) ∧
    (ClassDeserializer.Deserialize D S payload true).1.calls =
      (ClassDeserializer.Deserialize D S payload false).1.calls ++ [UnpackCall.Finalize] ∧
    (ClassDeserializer.Deserialize D S payload true).1.calls.countP UnpackCall.isFinalize = 1 ∧
    (ClassDeserializer.Deserialize D S payload false).1.calls.countP UnpackCall.isFinalize = 0 ∧
    (ClassDeserializer.Deserialize D S payload true).1.state =
      D.Finalize (ClassDeserializer.Deserialize D S payload false).1.state ∧
    ∀ u : Unpacker σ Ty,
      (ClassDeserializer.DeserializeFrom (α := α) D S u).1.calls.countP UnpackCall.isFinalize =
        u.calls.countP UnpackCall.isFinalize := by
  have hcount := Func_countP_isFinalize D S ⟨D.ctor payload, []⟩ (default : α) 0
  rcases hrun : ClassDeserializerFunctor.Func D S ⟨D.ctor payload, []⟩ (default : α) 0
    with ⟨u1, res⟩
  rw [hrun] at hok hcount
  simp only at hok
  subst hok
  simp only [List.countP_nil] at hcount
  refine ⟨?_, ?_, ?_, ?_, ?_, ?_, ?_, ?_⟩
  · simp [ClassDeserializer.Deserialize, hrun]
  · simp [ClassDeserializer.Deserialize, hrun]
  · intro cs
    simp only [ClassDeserializer.DeserializeFrom]
    rw [Func_record, hrun]
  · simp [ClassDeserializer.Deserialize, hrun, Unpacker.Finalize]
  · simp [ClassDeserializer.Deserialize, hrun, Unpacker.Finalize, hcount,
      UnpackCall.isFinalize]
  · simp [ClassDeserializer.Deserialize, hrun, hcount]
  · simp [ClassDeserializer.Deserialize, hrun, Unpacker.Finalize]
  · intro u
    exact Func_countP_isFinalize D S u (default : α) 0

/-- C7 at the schema `{id, name, email}` over the payload `[1, "Ann", ""]`. -/
theorem C7_finalize_flag_witness :
    (ClassDeserializer.Deserialize (α := Demo.Person) Demo.listUnpacker Demo.Person.schema
        [Demo.Value.int 1, Demo.Value.str "Ann", Demo.Value.str ""] true).1.calls.countP
      UnpackCall.isFinalize = 1 ∧
    (ClassDeserializer.Deserialize (α := Demo.Person) Demo.listUnpacker Demo.Person.schema
        [Demo.Value.int 1, Demo.Value.str "Ann", Demo.Value.str ""] false).1.calls.countP
      UnpackCall.isFinalize = 0 :=
  ⟨(C7_finalize_flag Demo.listUnpacker Demo.Person.schema
      [Demo.Value.int 1, Demo.Value.str "Ann", Demo.Value.str ""] ⟨1, "Ann", ""⟩ rfl).2.2.2.2.1,
    (C7_finalize_flag Demo.listUnpacker Demo.Person.schema
      [Demo.Value.int 1, Demo.Value.str "Ann", Demo.Value.str ""] ⟨1, "Ann", ""⟩ rfl).2.2.2.2.2.1⟩

/-- C16 (predicates see the instance under construction). Let the schema be
`pre ++ f :: post` and let the run of `Func` from index `0` over the fields before `f` have
left the instance `obj1` (the starting instance with every earlier applied field written).
Then what the run does at `f` is decided by `Evaluate_f(obj1)`: unpack slot `|pre|` and set
when it is true, go on to the next field when it is false. And it is decided by nothing else
about the predicate: replacing it by any predicate with the same value on `obj1`, whatever its
values on other instances such as the serialized one or the returned one, gives the same run.
(A predicate takes an instance; it cannot be applied to an unpacked value.) -/
theorem C16_predicates_see_instance_under_construction
    (D : DeserializerClass SerializedType σ Ty V ε)
    (pre post : TypeSerializationInfo α Ty V) (f : FieldInfo α Ty V)
    (p p1 : Unpacker σ Ty) (obj obj1 : α)
    (hpre : ClassDeserializerFunctor.Func D pre p obj 0 = (p1, Except.ok obj1)) :
    (ClassDeserializerFunctor.Func D (pre ++ f :: post) p obj 0 =
      if f.Evaluate obj1 = true then
        match (D.Deserialize f.ValueType pre.length p1.state).2 with
        | Except.ok v =>
          ClassDeserializerFunctor.Func D post
            ⟨(D.Deserialize f.ValueType pre.length p1.state).1,
              p1.calls ++ [UnpackCall.Deserialize f.ValueType pre.length]⟩
            (f.Set obj1 v) (pre.length + 1)
        | Except.error e =>
          (⟨(D.Deserialize f.ValueType pre.length p1.state).1,
              p1.calls ++ [UnpackCall.Deserialize f.ValueType pre.length]⟩, Except.error e)
      else ClassDeserializerFunctor.Func D post p1 obj1 (pre.length + 1)) ∧
    ∀ q : α → Bool, q obj1 = f.Evaluate obj1 →
      ClassDeserializerFunctor.Func D (pre ++ { f with Evaluate := q } :: post) p obj 0 =
        ClassDeserializerFunctor.Func D (pre ++ f :: post) p obj 0 := by
  have key : ∀ g : FieldInfo α Ty V,
      ClassDeserializerFunctor.Func D (pre ++ g :: post) p obj 0 =
        if g.Evaluate obj1 = true then
          match (D.Deserialize g.ValueType pre.length p1.state).2 with
          | Except.ok v =>
            ClassDeserializerFunctor.Func D post
              ⟨(D.Deserialize g.ValueType pre.length p1.state).1,
                p1.calls ++ [UnpackCall.Deserialize g.ValueType pre.length]⟩
              (g.Set obj1 v) (pre.length + 1)
          | Except.error e =>
            (⟨(D.Deserialize g.ValueType pre.length p1.state).1,
                p1.calls ++ [UnpackCall.Deserialize g.ValueType pre.length]⟩, Except.error e)
        else ClassDeserializerFunctor.Func D post p1 obj1 (pre.length + 1) := by
    intro g
    by_cases hev : g.Evaluate obj1 = true
    · have h := Func_read_at D pre post g p p1 obj obj1 0 hpre hev
      simp only [zero_add] at h
      rw [h, if_pos hev]
    · have hev2 : g.Evaluate obj1 = false := by simpa using hev
      have h := Func_skip_at D pre post g p p1 obj obj1 0 hpre hev2
      simp only [zero_add] at h
      rw [h, if_neg hev]
  refine ⟨key f, ?_⟩
  intro q hq
  rw [key f, key { f with Evaluate := q }]
  simp only [hq]

/-- C16 at the schema `{id, name, email}` over the payload `[1, "Ann", ""]`: when the turn of
`email` comes the instance is `{1, "Ann", "unset"}`, on which "email is non-empty" is true; the
always-true predicate agrees with it there (and nowhere on instances with an empty `email`,
such as the serialized and the returned one), and gives the same run. -/
theorem C16_predicates_see_instance_under_construction_witness :
    ClassDeserializerFunctor.Func Demo.listUnpacker
        ([Demo.Person.idField, Demo.Person.nameField] ++
          { Demo.Person.emailField with Evaluate := fun _ => true } :: [])
        ⟨[Demo.Value.int 1, Demo.Value.str "Ann", Demo.Value.str ""], []⟩
        (default : Demo.Person) 0 =
      ClassDeserializerFunctor.Func Demo.listUnpacker
        ([Demo.Person.idField, Demo.Person.nameField] ++ Demo.Person.emailField :: [])
        ⟨[Demo.Value.int 1, Demo.Value.str "Ann", Demo.Value.str ""], []⟩
        (default : Demo.Person) 0 :=
  (C16_predicates_see_instance_under_construction Demo.listUnpacker
    [Demo.Person.idField, Demo.Person.nameField] [] Demo.Person.emailField
    ⟨[Demo.Value.int 1, Demo.Value.str "Ann", Demo.Value.str ""], []⟩
    ⟨[Demo.Value.int 1, Demo.Value.str "Ann", Demo.Value.str ""],
      [UnpackCall.Deserialize Demo.Ty.int 0, UnpackCall.Deserialize Demo.Ty.string 1]⟩
    default ⟨1, "Ann", "unset"⟩ rfl).2 (fun _ => true) rfl

/-- C17 (bounded, ordered backend access). `Func` is a total function, so every run returns.
For a schema of `N` fields, the backend calls of one run started at index `0` are exactly the
calls `Deserialize<ValueType_k>(k)` of the positions `k` whose predicate held at their turn,
in increasing order of `k`, appended to the earlier record. Hence there are at most `N` of
them, as many as there are positions whose predicate held at their turn, each has an index in
`0..N-1` and the value type of the field at that index, the indices are strictly increasing,
and a position whose predicate did not hold at its turn has no call at all. When the run
returns, the turn of every field came: the run over each initial segment of the schema
returns. -/
theorem C17_bounded_ordered_backend_access (D : DeserializerClass SerializedType σ Ty V ε)
    (S : TypeSerializationInfo α Ty V) (s : σ) (obj : α) :
    (∀ cs, (ClassDeserializerFunctor.Func D S ⟨s, cs⟩ obj 0).1.calls =
      cs ++ (List.range S.length).filterMap (callAt D S s obj)) ∧
    (ClassDeserializerFunctor.Func D S ⟨s, []⟩ obj 0).1.calls.length ≤ S.length ∧
    (ClassDeserializerFunctor.Func D S ⟨s, []⟩ obj 0).1.calls.length =
      (List.range S.length).countP (predicateHeldAt D S s obj) ∧
    (∀ call ∈ (ClassDeserializerFunctor.Func D S ⟨s, []⟩ obj 0).1.calls,
      ∃ (k : Nat) (hk : k < S.length),
        call = UnpackCall.Deserialize (S.get ⟨k, hk⟩).ValueType (k : Int)) ∧
    (ClassDeserializerFunctor.Func D S ⟨s, []⟩ obj 0).1.calls.Pairwise
      (fun a b => ∀ ta ia tb ib, a = UnpackCall.Deserialize ta ia →
        b = UnpackCall.Deserialize tb ib → ia < ib) ∧
    (∀ k : Nat, predicateHeldAt D S s obj k = false →
      ∀ ty, UnpackCall.Deserialize ty (k : Int) ∉
        (ClassDeserializerFunctor.Func D S ⟨s, []⟩ obj 0).1.calls) ∧
    (∀ r, (ClassDeserializerFunctor.Func D S ⟨s, []⟩ obj 0).2 = Except.ok r →
      ∀ k, k ≤ S.length →
        ∃ p1 o1, ClassDeserializerFunctor.Func D (S.take k) ⟨s, []⟩ obj 0 =
          (p1, Except.ok o1)) := by
  have hcalls : (ClassDeserializerFunctor.Func D S ⟨s, []⟩ obj 0).1.calls =
      (List.range S.length).filterMap (callAt D S s obj) := by
    have h := Func_take_calls D S s obj S.length (le_refl _)
    rwa [List.take_length] at h
  have hsome : ∀ k call, callAt D S s obj k = some call →
      predicateHeldAt D S s obj k = true ∧
      ∃ hk : k < S.length, call = UnpackCall.Deserialize (S.get ⟨k, hk⟩).ValueType (k : Int) := by
    intro k call h
    unfold callAt at h
    by_cases hk : k < S.length
    · rw [List.get?_eq_get hk] at h
      by_cases hheld : predicateHeldAt D S s obj k = true
      · simp only [hheld, if_true, Option.some.injEq] at h
        exact ⟨hheld, hk, h.symm⟩
      · simp [hheld] at h
    · rw [List.get?_eq_none.mpr (Nat.le_of_not_lt hk)] at h
      simp at h
  refine ⟨?_, ?_, ?_, ?_, ?_, ?_, ?_⟩
  · intro cs
    rw [Func_record, hcalls]
  · rw [hcalls]
    calc ((List.range S.length).filterMap (callAt D S s obj)).length
        ≤ (List.range S.length).length := List.length_filterMap_le _ _
      _ = S.length := List.length_range _
  · rw [hcalls, List.length_filterMap_eq_countP]
    apply List.countP_congr
    intro k hk
    have hk2 : k < S.length := List.mem_range.mp hk
    unfold callAt
    rw [List.get?_eq_get hk2]
    by_cases hheld : predicateHeldAt D S s obj k = true <;> simp [hheld]
  · intro call hc
    rw [hcalls, List.mem_filterMap] at hc
    obtain ⟨k, _, hk⟩ := hc
    obtain ⟨_, hkl, hcall⟩ := hsome k call hk
    exact ⟨k, hkl, hcall⟩
  · rw [hcalls]
    refine List.Pairwise.filterMap (callAt D S s obj) ?_ (List.pairwise_lt_range S.length)
    intro a b hab ca hca cb hcb ta ia tb ib hta htb
    obtain ⟨_, _, h1⟩ := hsome a ca hca
    obtain ⟨_, _, h2⟩ := hsome b cb hcb
    rw [h1] at hta
    rw [h2] at htb
    simp only [UnpackCall.Deserialize.injEq] at hta htb
    omega
  · intro k hheld ty hmem
    rw [hcalls, List.mem_filterMap] at hmem
    obtain ⟨j, _, hj⟩ := hmem
    obtain ⟨hjheld, _, hcall⟩ := hsome j _ hj
    simp only [UnpackCall.Deserialize.injEq] at hcall
    have hjk : j = k := by omega
    rw [hjk, hheld] at hjheld
    exact Bool.false_ne_true hjheld
  · intro r hr k _
    have happ := Func_append D (S.take k) (S.drop k) ⟨s, []⟩ obj 0
    rw [List.take_append_drop] at happ
    rcases hrun : ClassDeserializerFunctor.Func D (S.take k) ⟨s, []⟩ obj 0 with ⟨p1, res⟩
    rw [hrun] at happ
    cases res with
    | ok o1 => exact ⟨p1, o1, rfl⟩
    | error e =>
      rw [happ] at hr
      simp at hr

/-- C17 at the schema `{value, count}` over the payload `[5, 7]`: the run returns, so the
turn of both fields came; `value` is skipped and the one backend call is `Deserialize<int>(1)`. -/
theorem C17_bounded_ordered_backend_access_witness :
    (ClassDeserializerFunctor.Func Demo.listUnpacker Demo.Reading.schema
        ⟨[Demo.Value.int 5, Demo.Value.int 7], []⟩ (default : Demo.Reading) 0).1.calls =
      [] ++ (List.range Demo.Reading.schema.length).filterMap
        (callAt Demo.listUnpacker Demo.Reading.schema [Demo.Value.int 5, Demo.Value.int 7]
          (default : Demo.Reading)) ∧
    ∃ p1 o1, ClassDeserializerFunctor.Func Demo.listUnpacker (Demo.Reading.schema.take 2)
        ⟨[Demo.Value.int 5, Demo.Value.int 7], []⟩ (default : Demo.Reading) 0 =
      (p1, Except.ok o1) :=
  ⟨(C17_bounded_ordered_backend_access Demo.listUnpacker Demo.Reading.schema
      [Demo.Value.int 5, Demo.Value.int 7] (default : Demo.Reading)).1 [],
    (C17_bounded_ordered_backend_access Demo.listUnpacker Demo.Reading.schema
      [Demo.Value.int 5, Demo.Value.int 7] (default : Demo.Reading)).2.2.2.2.2.2 ⟨0, 7⟩ rfl 2
      (by decide)⟩

/-- C18 (no finalization on failure). If `Deserialize(p, true)` throws, no `Finalize` call
was made on the backend: the record of calls holds none, and the outcome is the same as with
`finalize = false`. -/
theorem C18_no_finalization_on_failure [Inhabited α]
    (D : DeserializerClass SerializedType σ Ty V ε)
    (S : TypeSerializationInfo α Ty V) (payload : SerializedType) (e : ε)
    (hfail : (ClassDeserializer.Deserialize (α := α) D S payload true).2 = Except.error e) :
    (ClassDeserializer.Deserialize (α := α) D S payload true).1.calls.countP
      UnpackCall.isFinalize = 0 ∧
    UnpackCall.Finalize ∉ (ClassDeserializer.Deserialize (α := α) D S payload true).1.calls ∧
    ClassDeserializer.Deserialize (α := α) D S payload true =
      ClassDeserializer.Deserialize (α := α) D S payload false := by
  have hcount := Func_countP_isFinalize D S ⟨D.ctor payload, []⟩ (default : α) 0
  simp only [List.countP_nil] at hcount
  rcases hrun : ClassDeserializerFunctor.Func D S ⟨D.ctor payload, []⟩ (default : α) 0
    with ⟨u1, res⟩
  rw [hrun] at hcount
  simp only [ClassDeserializer.Deserialize, hrun] at hfail ⊢
  cases res with
  | ok ret => simp at hfail
  | error e1 =>
    simp only at hcount ⊢
    refine ⟨hcount, ?_, trivial⟩
    intro hmem
    have hpos : 0 < u1.calls.countP UnpackCall.isFinalize :=
      List.countP_pos_iff.mpr ⟨UnpackCall.Finalize, hmem, rfl⟩
    omega

/-- C18 at the schema `{id, name, email}` over the one-slot payload `[1]`: unpacking `name`
throws, and the backend saw the two `Deserialize` calls only. -/
theorem C18_no_finalization_on_failure_witness :
    (ClassDeserializer.Deserialize (α := Demo.Person) Demo.listUnpacker Demo.Person.schema
      [Demo.Value.int 1] true).1.calls.countP UnpackCall.isFinalize = 0 :=
  (C18_no_finalization_on_failure Demo.listUnpacker Demo.Person.schema [Demo.Value.int 1]
    (Demo.UnpackError.outOfRange 1) rfl).1

end DeserializationClaims

/-! ## The claims about serialization and the round trip -/

section SerializationClaims

variable {SerializedType σ π Ty V ε α : Type}

/-- C5 (dense serialization). For every schema `S`, backend and instance, with either
overload of `ClassSerializer::Serialize`: replacing the presence predicates of the fields by
any others changes nothing at all (`Evaluate` is not consulted); the values handed to the
packer are always an initial segment of `Get_0(ptr), .., Get_{N-1}(ptr)` in schema order (the
segment ends at a pack that throws); and when the call returns they are exactly these `N`
values, each packed under its field's `ValueType`. -/
theorem C5_dense_serialization (P : SerializerClass SerializedType π Ty V ε)
    (S : TypeSerializationInfo α Ty V) (ptr : α) :
    (∀ q : FieldInfo α Ty V → α → Bool,
      ClassSerializer.Serialize P (S.map fun f => { f with Evaluate := q f }) ptr =
        ClassSerializer.Serialize P S ptr) ∧
    (∀ (q : FieldInfo α Ty V → α → Bool) (packer : Packer π Ty V),
      ClassSerializer.SerializeInto P (S.map fun f => { f with Evaluate := q f }) packer ptr =
        ClassSerializer.SerializeInto P S packer ptr) ∧
    (packedValues (ClassSerializer.Serialize P S ptr).1.calls <+:
      S.map fun f => (f.ValueType, f.Get ptr)) ∧
    (∀ payload, (ClassSerializer.Serialize P S ptr).2 = Except.ok payload →
      packedValues (ClassSerializer.Serialize P S ptr).1.calls =
          (S.map fun f => (f.ValueType, f.Get ptr)) ∧
        (packedValues (ClassSerializer.Serialize P S ptr).1.calls).length = S.length) ∧
    (∀ packer : Packer π Ty V,
      (ClassSerializer.SerializeInto P S packer ptr).2 = Except.ok () →
        (ClassSerializer.SerializeInto P S packer ptr).1.calls =
          packer.calls ++ S.map fun f => PackCall.Pack f.ValueType (f.Get ptr)) := by
  have hmap : ∀ q : FieldInfo α Ty V → α → Bool,
      ((S.map fun f => { f with Evaluate := q f }).map fun f => (f.ValueType, f.Get ptr)) =
        S.map fun f => (f.ValueType, f.Get ptr) := by
    intro q
    rw [List.map_map]
    rfl
  refine ⟨?_, ?_, ?_, ?_, ?_⟩
  · intro q
    simp only [ClassSerializer.Serialize, hmap]
  · intro q packer
    simp only [ClassSerializer.SerializeInto, hmap]
  · obtain ⟨k, _, hcalls, _⟩ := SerializerFunctor_calls P ⟨P.ctor, []⟩
      (S.map fun f => (f.ValueType, f.Get ptr))
    rcases hrun : SerializerFunctor.Func P ⟨P.ctor, []⟩
      (S.map fun f => (f.ValueType, f.Get ptr)) with ⟨p1, res⟩
    rw [hrun] at hcalls
    simp only [List.nil_append] at hcalls
    simp only [ClassSerializer.Serialize, hrun]
    cases res with
    | error e =>
      simp only [hcalls, packedValues_map_Pack]
      exact List.take_prefix _ _
    | ok u =>
      simp only [Packer.EndPack, hcalls, packedValues_append, packedValues_map_Pack,
        packedValues, List.append_nil]
      exact List.take_prefix _ _
  · intro payload h
    have hp := Serialize_packedValues P S ptr payload h
    exact ⟨hp, by rw [hp, List.length_map]⟩
  · intro packer h
    obtain ⟨k, _, hcalls, hall⟩ := SerializerFunctor_calls P packer
      (S.map fun f => (f.ValueType, f.Get ptr))
    simp only [ClassSerializer.SerializeInto] at h ⊢
    rw [hcalls, hall h, List.take_length, List.map_map]
    rfl

/-- C5 at the schema `{id, name, email}` and the instance `{1, "Ann", ""}` on the list
packer: three values are packed, the empty `email` included. -/
theorem C5_dense_serialization_witness :
    packedValues (ClassSerializer.Serialize Demo.listPacker Demo.Person.schema Demo.ann).1.calls =
        (Demo.Person.schema.map fun f => (f.ValueType, f.Get Demo.ann)) ∧
      (packedValues
        (ClassSerializer.Serialize Demo.listPacker Demo.Person.schema Demo.ann).1.calls).length =
        Demo.Person.schema.length :=
  (C5_dense_serialization Demo.listPacker Demo.Person.schema Demo.ann).2.2.2.1
    [Demo.Value.int 1, Demo.Value.str "Ann", Demo.Value.str ""] rfl

/-- C8 (top-level versus nested serialization). `Serialize(instance)` is the nested overload
`Serialize(packer, instance)` run on a freshly constructed packer, followed, when that returns,
by `return packer.EndPack()`. The nested overload never calls `EndPack` (the number of
`EndPack` calls in the record of the caller's packer is unchanged), and when it returns it has
made exactly the pack calls `Pack(Get_i(instance))` in schema order, which are also the calls
of the top-level overload before its single, final `EndPack`. -/
theorem C8_top_level_versus_nested (P : SerializerClass SerializedType π Ty V ε)
    (S : TypeSerializationInfo α Ty V) (ptr : α) :
    (ClassSerializer.Serialize P S ptr =
      match ClassSerializer.SerializeInto P S ⟨P.ctor, []⟩ ptr with
      | (packer1, Except.ok _) => ((packer1.EndPack P).1, Except.ok (packer1.EndPack P).2)
      | (packer1, Except.error e) => (packer1, Except.error e)) ∧
    (∀ packer : Packer π Ty V,
      (ClassSerializer.SerializeInto P S packer ptr).1.calls.countP PackCall.isEndPack =
        packer.calls.countP PackCall.isEndPack) ∧
    (∀ packer : Packer π Ty V,
      (ClassSerializer.SerializeInto P S packer ptr).2 = Except.ok () →
        (ClassSerializer.SerializeInto P S packer ptr).1.calls =
          packer.calls ++ S.map fun f => PackCall.Pack f.ValueType (f.Get ptr)) ∧
    (∀ payload, (ClassSerializer.Serialize P S ptr).2 = Except.ok payload →
      (ClassSerializer.Serialize P S ptr).1.calls =
          (S.map fun f => PackCall.Pack f.ValueType (f.Get ptr)) ++ [PackCall.EndPack] ∧
        payload = P.EndPack (ClassSerializer.SerializeInto P S ⟨P.ctor, []⟩ ptr).1.state) := by
  have hinto : ∀ packer : Packer π Ty V,
      (ClassSerializer.SerializeInto P S packer ptr).2 = Except.ok () →
        (ClassSerializer.SerializeInto P S packer ptr).1.calls =
          packer.calls ++ S.map fun f => PackCall.Pack f.ValueType (f.Get ptr) := by
    intro packer h
    obtain ⟨k, _, hcalls, hall⟩ := SerializerFunctor_calls P packer
      (S.map fun f => (f.ValueType, f.Get ptr))
    simp only [ClassSerializer.SerializeInto] at h ⊢
    rw [hcalls, hall h, List.take_length, List.map_map]
    rfl
  refine ⟨rfl, ?_, hinto, ?_⟩
  · intro packer
    exact SerializerFunctor_countP_isEndPack P packer _
  · intro payload h
    have h0 := hinto ⟨P.ctor, []⟩
    rcases hrun : SerializerFunctor.Func P ⟨P.ctor, []⟩
      (S.map fun f => (f.ValueType, f.Get ptr)) with ⟨p1, res⟩
    simp only [ClassSerializer.Serialize, hrun] at h ⊢
    simp only [ClassSerializer.SerializeInto, hrun] at h0 ⊢
    cases res with
    | error e => simp at h
    | ok u =>
      have hc := h0 rfl
      simp only [List.nil_append] at hc
      simp only [Packer.EndPack, Except.ok.injEq] at h ⊢
      exact ⟨by rw [hc], h.symm⟩

/-- C8 at the schema `{id, name, email}` and the instance `{1, "Ann", ""}` on the list
packer. -/
theorem C8_top_level_versus_nested_witness :
    (ClassSerializer.Serialize Demo.listPacker Demo.Person.schema Demo.ann).1.calls =
        (Demo.Person.schema.map fun f => PackCall.Pack f.ValueType (f.Get Demo.ann)) ++
          [PackCall.EndPack] ∧
      [Demo.Value.int 1, Demo.Value.str "Ann", Demo.Value.str ""] =
        Demo.listPacker.EndPack
          (ClassSerializer.SerializeInto Demo.listPacker Demo.Person.schema
            ⟨Demo.listPacker.ctor, []⟩ Demo.ann).1.state :=
  (C8_top_level_versus_nested Demo.listPacker Demo.Person.schema Demo.ann).2.2.2
    [Demo.Value.int 1, Demo.Value.str "Ann", Demo.Value.str ""] rfl

/-- C1, as amended (round trip). Over a lawful schema `S`, for every instance `I` and every
backend pair such that `Serialize(I)` returns `payload` and the unpacker built from `payload`
answers `Deserialize<T_i>(i)` with the `i`-th value packed before `EndPack`: if every field's
presence predicate is true when it is consulted, that is on the instance under reconstruction
as the fields before it have left it, then `Deserialize(payload)` returns an instance on which
every getter of the schema reads what it reads on `I`. -/
theorem C1_round_trip [Inhabited α] (P : SerializerClass SerializedType π Ty V ε)
    (D : DeserializerClass SerializedType σ Ty V ε) (S : TypeSerializationInfo α Ty V)
    (I : α) (payload : SerializedType) (finalizePackedObject : Bool)
    (hlaw : LawfulSchema S)
    (hser : (ClassSerializer.Serialize P S I).2 = Except.ok payload)
    (hback : D.ReturnsPacked payload (packedValues (ClassSerializer.Serialize P S I).1.calls))
    (hpred : ∀ (k : Nat) (hk : k < S.length) (o : α),
      (ClassDeserializerFunctor.Func D (S.take k) ⟨D.ctor payload, []⟩ (default : α) 0).2 =
          Except.ok o →
        (S.get ⟨k, hk⟩).Evaluate o = true) :
    ∃ r, (ClassDeserializer.Deserialize D S payload finalizePackedObject).2 = Except.ok r ∧
      ∀ f ∈ S, f.Get r = f.Get I := by
  obtain ⟨r, hr, hgets⟩ :=
    Deserialize_Serialize_get P D S I payload finalizePackedObject hlaw hser hback hpred
  refine ⟨r, hr, ?_⟩
  intro f hf
  obtain ⟨n, hn⟩ := List.mem_iff_get.mp hf
  rw [← hn]
  exact hgets n.1 n.2

/-- C1 as stated fails. Schema `{value, count}` with `value` present only when `count` is
non-zero, instance `{5, 7}`, list backend (which returns what was packed): the predicate of
`value` is consulted on the default-constructed instance, where `count` is still `0`, so
`value` is skipped and the result is `{0, 7}`. Every predicate is true on that returned
instance, and yet `value` differs from the serialized `5`. -/
theorem C1_round_trip_counterexample :
    LawfulSchema Demo.Reading.schema ∧
    (ClassSerializer.Serialize Demo.listPacker Demo.Reading.schema
      (⟨5, 7⟩ : Demo.Reading)).2 = Except.ok [Demo.Value.int 5, Demo.Value.int 7] ∧
    Demo.listUnpacker.ReturnsPacked [Demo.Value.int 5, Demo.Value.int 7]
      (packedValues (ClassSerializer.Serialize Demo.listPacker Demo.Reading.schema
        (⟨5, 7⟩ : Demo.Reading)).1.calls) ∧
    (ClassDeserializer.Deserialize (α := Demo.Reading) Demo.listUnpacker Demo.Reading.schema
      [Demo.Value.int 5, Demo.Value.int 7] true).2 = Except.ok ⟨0, 7⟩ ∧
    (∀ f ∈ Demo.Reading.schema, f.Evaluate (⟨0, 7⟩ : Demo.Reading) = true) ∧
    Demo.Reading.valueField.Get (⟨0, 7⟩ : Demo.Reading) ≠
      Demo.Reading.valueField.Get (⟨5, 7⟩ : Demo.Reading) := by
  refine ⟨Demo.Reading_schema_lawful, rfl, ?_, rfl, ?_, by decide⟩
  · exact Demo.listUnpacker_returnsPacked
      [(Demo.Ty.int, Demo.Value.int 5), (Demo.Ty.int, Demo.Value.int 7)] (by decide)
  · intro f hf
    simp only [Demo.Reading.schema, List.mem_cons, List.mem_singleton, List.not_mem_nil,
      or_false] at hf
    rcases hf with rfl | rfl <;> rfl

/-- C1 at the schema `{id, name, email}` and the instance `{1, "Ann", ""}` on the list
backend. -/
theorem C1_round_trip_witness :
    ∃ r, (ClassDeserializer.Deserialize (α := Demo.Person) Demo.listUnpacker Demo.Person.schema
        [Demo.Value.int 1, Demo.Value.str "Ann", Demo.Value.str ""] true).2 = Except.ok r ∧
      ∀ f ∈ Demo.Person.schema, f.Get r = f.Get Demo.ann :=
  C1_round_trip Demo.listPacker Demo.listUnpacker Demo.Person.schema Demo.ann
    [Demo.Value.int 1, Demo.Value.str "Ann", Demo.Value.str ""] true
    Demo.Person_schema_lawful rfl
    (Demo.listUnpacker_returnsPacked
      [(Demo.Ty.int, Demo.Value.int 1), (Demo.Ty.string, Demo.Value.str "Ann"),
        (Demo.Ty.string, Demo.Value.str "")] (by decide))
    (by
      intro k hk o h
      have hk3 : k < 3 := hk
      interval_cases k
      · rfl
      · rfl
      · have h2 : (ClassDeserializerFunctor.Func Demo.listUnpacker
            (Demo.Person.schema.take 2)
            ⟨Demo.listUnpacker.ctor [Demo.Value.int 1, Demo.Value.str "Ann", Demo.Value.str ""],
              []⟩ (default : Demo.Person) 0).2 = Except.ok ⟨1, "Ann", "unset"⟩ := rfl
        rw [h2] at h
        cases h
        rfl)

/-- C4, as amended (concrete scenario). For the schema `{id, name, email with predicate
"email is non-empty"}` over the class whose default constructor sets `email` to `"unset"`, and
every backend pair that returns what was packed: serializing `{1, "Ann", ""}` and deserializing
the result yields `id = 1`, `name = "Ann"` and `email = ""`. The predicate is consulted on the
instance under reconstruction, whose `email` is still the non-empty `"unset"`, so it holds and
the empty string of the payload is applied. -/
theorem C4_concrete_scenario (P : SerializerClass SerializedType π Demo.Ty Demo.Value ε)
    (D : DeserializerClass SerializedType σ Demo.Ty Demo.Value ε)
    (payload : SerializedType) (finalizePackedObject : Bool)
    (hser : (ClassSerializer.Serialize P Demo.Person.schema Demo.ann).2 = Except.ok payload)
    (hback : D.ReturnsPacked payload
      (packedValues (ClassSerializer.Serialize P Demo.Person.schema Demo.ann).1.calls)) :
    (ClassDeserializer.Deserialize D Demo.Person.schema payload finalizePackedObject).2 =
      Except.ok (⟨1, "Ann", ""⟩ : Demo.Person) := by
  have hpred : ∀ (k : Nat) (hk : k < Demo.Person.schema.length) (o : Demo.Person),
      (ClassDeserializerFunctor.Func D (Demo.Person.schema.take k) ⟨D.ctor payload, []⟩
          (default : Demo.Person) 0).2 = Except.ok o →
        (Demo.Person.schema.get ⟨k, hk⟩).Evaluate o = true := by
    intro k hk o h
    have hk3 : k < 3 := hk
    interval_cases k
    · rfl
    · rfl
    · have hemail := Func_frame D (Demo.Person.schema.take 2) ⟨D.ctor payload, []⟩
        (default : Demo.Person) o 0 Demo.Person.emailField.Get
        (by
          intro g hg o1 v
          have hg2 : g = Demo.Person.idField ∨ g = Demo.Person.nameField := by
            simpa [Demo.Person.schema] using hg
          rcases hg2 with rfl | rfl <;> cases v <;> rfl)
        h
      have he : o.email = "unset" := by
        simpa [Demo.Person.emailField] using hemail
      show decide (o.email ≠ "") = true
      rw [he]
      decide
  obtain ⟨r, hr, hgets⟩ := Deserialize_Serialize_get P D Demo.Person.schema Demo.ann payload
    finalizePackedObject Demo.Person_schema_lawful hser hback hpred
  have h0 := hgets 0 (by decide)
  have h1 := hgets 1 (by decide)
  have h2 := hgets 2 (by decide)
  rw [hr]
  obtain ⟨rid, rname, remail⟩ := r
  simp only [Demo.Person.schema, List.get, Demo.Person.idField, Demo.Person.nameField,
    Demo.Person.emailField, Demo.ann, Demo.Value.int.injEq, Demo.Value.str.injEq] at h0 h1 h2
  rw [h0, h1, h2]

/-- C4 as stated fails: on the list backend the scenario returns `email = ""`, not the
default `"unset"`. -/
theorem C4_concrete_scenario_counterexample :
    (ClassSerializer.Serialize Demo.listPacker Demo.Person.schema Demo.ann).2 =
      Except.ok [Demo.Value.int 1, Demo.Value.str "Ann", Demo.Value.str ""] ∧
    (ClassDeserializer.Deserialize (α := Demo.Person) Demo.listUnpacker Demo.Person.schema
      [Demo.Value.int 1, Demo.Value.str "Ann", Demo.Value.str ""] true).2 ≠
      Except.ok ⟨1, "Ann", "unset"⟩ ∧
    (default : Demo.Person).email = "unset" ∧
    Demo.Person.emailField.Evaluate Demo.ann = false := by
  refine ⟨rfl, ?_, rfl, rfl⟩
  have h : (ClassDeserializer.Deserialize (α := Demo.Person) Demo.listUnpacker
      Demo.Person.schema [Demo.Value.int 1, Demo.Value.str "Ann", Demo.Value.str ""] true).2 =
      Except.ok ⟨1, "Ann", ""⟩ := rfl
  rw [h]
  intro hc
  have := Except.ok.inj hc
  exact absurd this (by decide)

/-- C4 on the list backend. -/
theorem C4_concrete_scenario_witness :
    (ClassDeserializer.Deserialize (α := Demo.Person) Demo.listUnpacker Demo.Person.schema
      [Demo.Value.int 1, Demo.Value.str "Ann", Demo.Value.str ""] true).2 =
      Except.ok (⟨1, "Ann", ""⟩ : Demo.Person) :=
  C4_concrete_scenario Demo.listPacker Demo.listUnpacker
    [Demo.Value.int 1, Demo.Value.str "Ann", Demo.Value.str ""] true rfl
    (Demo.listUnpacker_returnsPacked
      [(Demo.Ty.int, Demo.Value.int 1), (Demo.Ty.string, Demo.Value.str "Ann"),
        (Demo.Ty.string, Demo.Value.str "")] (by decide))

end SerializationClaims

end Serialization

/-! ## The claims about selector keys -/

namespace Core
namespace Introspect

/-- C10 (16-byte key equality). For every two `StorageSelector<16>::Type` values `a` and `b`,
`a == b` is true exactly when `a.value[0] = b.value[0]` and `a.value[1] = b.value[1]`, which
is exactly when the two keys are the same value; and `a != b` is the negation of `a == b`. -/
theorem C10_key16_equality (a b : StorageSelector16) :
    (StorageSelector16.operator_eq a b = true ↔
      a.value 0 = b.value 0 ∧ a.value 1 = b.value 1) ∧
    (StorageSelector16.operator_eq a b = true ↔ a = b) ∧
    StorageSelector16.operator_ne a b = !StorageSelector16.operator_eq a b := by
  have h1 : StorageSelector16.operator_eq a b = true ↔
      a.value 0 = b.value 0 ∧ a.value 1 = b.value 1 := by
    simp [StorageSelector16.operator_eq]
  refine ⟨h1, ?_, ?_⟩
  · rw [h1]
    constructor
    · rintro ⟨h0, h1⟩
      cases a with
      | mk av =>
        cases b with
        | mk bv =>
          congr
          funext i
          match i with
          | 0 => exact h0
          | 1 => exact h1
    · rintro rfl
      exact ⟨rfl, rfl⟩
  · simp only [StorageSelector16.operator_ne, StorageSelector16.operator_eq, Bool.not_and]
    rfl

/-- Where the hash functors are well-formed, keys that compare equal with
`value == other.value` get equal hashes, for every storage kind. -/
theorem StorageKind.hash_eq_of_operator_eq (H : StdHash) (k : StorageKind) (a b : k.Lvalue)
    (ha hb : Nat) (hha : k.hash H a = some ha) (hhb : k.hash H b = some hb)
    (h : k.operator_eq a b = true) : ha = hb := by
  cases k with
  | integer size =>
    have hab : a = b := Nat.eq_of_beq_eq_true h
    rw [hab, hhb] at hha
    exact (Option.some.inj hha).symm
  | words16 => simp [StorageKind.hash] at hha
  | bytes size =>
    have hab : CharArray.address a = CharArray.address b := Nat.eq_of_beq_eq_true h
    simp only [StorageKind.hash, Option.some.injEq] at hha hhb
    rw [← hha, ← hhb, hab]

/-- The explicit specialization `std::hash<StorageSelector<16>::Type>`, used where it has been
declared: the hash of `s` is `h(s.value[0]) ^ h(s.value[1])`, where `h` is
`std::hash<long long>` on the word read as a `long long` and `^` is the bitwise exclusive or
(bit `i` of the hash is the exclusive or of the bits `i` of the two word hashes, and the hash
stays within the width of the word hashes); keys with `a == b` have equal hashes. -/
theorem StorageSelector16.hash_xor_consistent (H : StdHash) :
    (∀ s : StorageSelector16,
      StorageSelector16.hash H s =
        H.longlong (toLongLong (s.value 0)) ^^^ H.longlong (toLongLong (s.value 1))) ∧
    (∀ (s : StorageSelector16) (i : Nat),
      (StorageSelector16.hash H s).testBit i =
        Bool.xor ((H.longlong (toLongLong (s.value 0))).testBit i)
          ((H.longlong (toLongLong (s.value 1))).testBit i)) ∧
    (∀ w : Nat, (∀ x, H.longlong x < 2 ^ w) →
      ∀ s : StorageSelector16, StorageSelector16.hash H s < 2 ^ w) ∧
    (∀ a b : StorageSelector16, StorageSelector16.operator_eq a b = true →
      StorageSelector16.hash H a = StorageSelector16.hash H b) := by
  refine ⟨fun _ => rfl, ?_, ?_, ?_⟩
  · intro s i
    simp only [StorageSelector16.hash, Nat.testBit_xor]
  · intro w hw s
    exact Nat.xor_lt_two_pow (hw _) (hw _)
  · intro a b h
    simp only [StorageSelector16.operator_eq, Bool.and_eq_true, beq_iff_eq] at h
    simp only [StorageSelector16.hash]
    rw [h.1, h.2]

/-- The two hash functors give equal hashes to keys that compare equal, at every storage width
at which they produce a hash. -/
theorem hash_functors_consistent (H : StdHash) (pointerSize : Nat) :
    (∀ (a b : PointerToMemberFunction pointerSize) (ha hb : Nat),
      PointerToMemberFunctionHash H a = some ha → PointerToMemberFunctionHash H b = some hb →
        a.operator_eq b = true → ha = hb) ∧
    (∀ (a b : PointerToMember pointerSize) (ha hb : Nat),
      PointerToMemberHash H a = some ha → PointerToMemberHash H b = some hb →
        a.operator_eq b = true → ha = hb) :=
  ⟨fun a b ha hb hha hhb h =>
      StorageKind.hash_eq_of_operator_eq H (StorageSelector pointerSize) a.value b.value ha hb
        hha hhb h,
    fun a b ha hb hha hhb h =>
      StorageKind.hash_eq_of_operator_eq H (StorageSelector pointerSize) a.value b.value ha hb
        hha hhb h⟩

/-- C11 on a target whose member function pointers are 16 bytes wide, so that the storage of
a key is `StorageSelector<16>::Type`, with the word hash that returns the 64 bits of its
argument. The key `{1, 2}` compares equal to itself and the specialization
`std::hash<StorageSelector<16>::Type>` would hash it to `1 ^ 2 = 3`, but the functors
`PointerToMemberFunctionHash` and `PointerToMemberHash` produce no hash for it: they use that
`std::hash` before its specialization is declared, which is ill-formed. -/
theorem C11_hash_functors_ill_formed_at_16 :
    StorageSelector 16 = StorageKind.words16 ∧
    PointerToMemberFunction.operator_eq (⟨⟨![1, 2]⟩⟩ : PointerToMemberFunction 16)
      ⟨⟨![1, 2]⟩⟩ = true ∧
    StorageSelector16.hash ⟨fun x => (x % 2 ^ 64).toNat, fun _ v => v, fun a => a⟩
      ⟨![1, 2]⟩ = 3 ∧
    PointerToMemberFunctionHash ⟨fun x => (x % 2 ^ 64).toNat, fun _ v => v, fun a => a⟩
      (⟨⟨![1, 2]⟩⟩ : PointerToMemberFunction 16) = none ∧
    PointerToMemberHash ⟨fun x => (x % 2 ^ 64).toNat, fun _ v => v, fun a => a⟩
      (⟨⟨![1, 2]⟩⟩ : PointerToMember 16) = none :=
  ⟨rfl, rfl, rfl, rfl, rfl⟩

/-- C19 (the 16-byte key hash is symmetric in its two words). For every two words `a` and `b`,
the keys `{a, b}` and `{b, a}` have the same hash, every key `{a, a}` hashes to `0`, and
`{a, b} == {b, a}` is false whenever `a` and `b` differ. -/
theorem C19_key16_hash_symmetric (H : StdHash) (a b : Nat) :
    StorageSelector16.hash H ⟨![a, b]⟩ = StorageSelector16.hash H ⟨![b, a]⟩ ∧
    StorageSelector16.hash H ⟨![a, a]⟩ = 0 ∧
    (a ≠ b → StorageSelector16.operator_eq ⟨![a, b]⟩ ⟨![b, a]⟩ = false) := by
  refine ⟨?_, ?_, ?_⟩
  · simp only [StorageSelector16.hash, Matrix.cons_val_zero, Matrix.cons_val_one,
      Matrix.head_cons]
    exact Nat.xor_comm _ _
  · simp only [StorageSelector16.hash, Matrix.cons_val_zero, Matrix.cons_val_one,
      Matrix.head_cons]
    exact Nat.xor_self _
  · intro hne
    simp only [StorageSelector16.operator_eq, Matrix.cons_val_zero, Matrix.cons_val_one,
      Matrix.head_cons, Bool.and_eq_false_imp, beq_iff_eq]
    intro hab
    exact absurd hab hne

/-- C19 at the words `1` and `2`, with the word hash that returns the 64 bits of its
argument: `{1, 2}` and `{2, 1}` both hash to `3` and are not equal. -/
theorem C19_key16_hash_symmetric_witness :
    StorageSelector16.operator_eq ⟨![1, 2]⟩ ⟨![2, 1]⟩ = false :=
  (C19_key16_hash_symmetric ⟨fun x => (x % 2 ^ 64).toNat, fun _ v => v, fun a => a⟩ 1 2).2.2
    (by decide)

/-- For the widths with an explicit specialization (1, 2, 4, 8 and 16 bytes), the comparison
`value == other.value` is true exactly when the two keys store the same content. -/
theorem StorageKind.operator_eq_iff_stored (k : StorageKind) (hk : ∀ n, k ≠ StorageKind.bytes n)
    (a b : k.Lvalue) : k.operator_eq a b = true ↔ k.stored a = k.stored b := by
  cases k with
  | integer size =>
    simp only [StorageKind.operator_eq, StorageKind.stored, List.cons.injEq, and_true]
    exact ⟨Nat.eq_of_beq_eq_true, fun h => h ▸ Nat.beq_refl _⟩
  | words16 =>
    simp [StorageKind.operator_eq, StorageKind.stored, StorageSelector16.operator_eq]
  | bytes size => exact absurd rfl (hk size)

/-- For the generic fallback, `value == other.value` compares the addresses of the two arrays
and never looks at the bytes. -/
theorem StorageKind.operator_eq_bytes (size : Nat) (a b : CharArray) :
    StorageKind.operator_eq (StorageKind.bytes size) a b = decide (a.address = b.address) := by
  simp only [StorageKind.operator_eq]
  by_cases h : a.address = b.address
  · simp [h]
  · simp only [h, decide_False]
    cases hb : Nat.beq a.address b.address with
    | false => rfl
    | true => exact absurd (Nat.eq_of_beq_eq_true hb) h

/-- C12, as amended (key comparison by storage width). For the widths with an explicit
specialization, 1, 2, 4, 8 and 16 bytes, the comparison `value == other.value` used by
`PointerToMember::operator==` and `PointerToMemberFunction::operator==` is true exactly when
the two keys store the same content. Every other width selects the generic fallback
`unsigned char[size]`, which has no content comparison: there `value == other.value` compares
the addresses of the two arrays. -/
theorem C12_key_comparison_by_width (size : Nat) :
    (size = 1 ∨ size = 2 ∨ size = 4 ∨ size = 8 ∨ size = 16 →
      (∀ a b : PointerToMember size, a.operator_eq b = true ↔
        (StorageSelector size).stored a.value = (StorageSelector size).stored b.value) ∧
      (∀ a b : PointerToMemberFunction size, a.operator_eq b = true ↔
        (StorageSelector size).stored a.value = (StorageSelector size).stored b.value)) ∧
    (¬(size = 1 ∨ size = 2 ∨ size = 4 ∨ size = 8 ∨ size = 16) →
      StorageSelector size = StorageKind.bytes size) ∧
    (∀ a b : CharArray,
      StorageKind.operator_eq (StorageKind.bytes size) a b = true ↔ a.address = b.address) := by
  refine ⟨?_, ?_, ?_⟩
  · intro h
    have hk : ∀ n, StorageSelector size ≠ StorageKind.bytes n := by
      intro n hn
      rcases h with rfl | rfl | rfl | rfl | rfl <;> simp [StorageSelector] at hn
    exact ⟨fun a b => StorageKind.operator_eq_iff_stored _ hk a.value b.value,
      fun a b => StorageKind.operator_eq_iff_stored _ hk a.value b.value⟩
  · intro h
    have h1 : ¬(size = 1 ∨ size = 2 ∨ size = 4 ∨ size = 8) := by tauto
    have h2 : ¬size = 16 := by tauto
    unfold StorageSelector
    rw [if_neg h1, if_neg h2]
  · intro a b
    rw [StorageKind.operator_eq_bytes]
    simp

/-- C12 as stated fails at a 12-byte selector, where `StorageSelector<12>::Type` is
`unsigned char[12]`: two key objects at different addresses holding the same twelve bytes
store the same content, and yet compare unequal with both `PointerToMember::operator==` and
`PointerToMemberFunction::operator==`. -/
theorem C12_key_comparison_counterexample :
    StorageSelector 12 = StorageKind.bytes 12 ∧
    StorageKind.stored (StorageKind.bytes 12)
        (CharArray.mk 4096 [8, 0, 0, 0, 0, 0, 0, 0, 0, 0, 0, 0]) =
      StorageKind.stored (StorageKind.bytes 12)
        (CharArray.mk 8192 [8, 0, 0, 0, 0, 0, 0, 0, 0, 0, 0, 0]) ∧
    PointerToMember.operator_eq
        (⟨CharArray.mk 4096 [8, 0, 0, 0, 0, 0, 0, 0, 0, 0, 0, 0]⟩ : PointerToMember 12)
        ⟨CharArray.mk 8192 [8, 0, 0, 0, 0, 0, 0, 0, 0, 0, 0, 0]⟩ = false ∧
    PointerToMemberFunction.operator_eq
        (⟨CharArray.mk 4096 [8, 0, 0, 0, 0, 0, 0, 0, 0, 0, 0, 0]⟩ : PointerToMemberFunction 12)
        ⟨CharArray.mk 8192 [8, 0, 0, 0, 0, 0, 0, 0, 0, 0, 0, 0]⟩ = false :=
  ⟨rfl, rfl, rfl, rfl⟩

/-- C12 at width 8, on two keys holding the word `5`. -/
theorem C12_key_comparison_by_width_witness :
    PointerToMember.operator_eq (⟨(5 : Nat)⟩ : PointerToMember 8) ⟨(5 : Nat)⟩ = true ↔
      (StorageSelector 8).stored (5 : Nat) = (StorageSelector 8).stored (5 : Nat) :=
  ((C12_key_comparison_by_width 8).1 (by decide)).1 ⟨(5 : Nat)⟩ ⟨(5 : Nat)⟩

/-! ## The claims about the signature traits -/

/-- C14 (const qualification is irrelevant to the signature). For every class `C`, return
type `R` and argument list `A`, `MemberFunction<R (C::*)(A...) const>` is
`MemberFunction<R (C::*)(A...)>`: both are defined and report the same `Arity`, `ReturnType`,
`DeclaringType`, `Args<i>`, `ArgsTuple` and `ArgsTupleDecay`. -/
theorem C14_const_qualification_irrelevant (C R : CType) (A : List CType) :
    MemberFunction (CType.memberFunction C R A true false) =
      MemberFunction (CType.memberFunction C R A false false) ∧
    ∃ m n : MemberFunctionTraits,
      MemberFunction (CType.memberFunction C R A true false) = some m ∧
      MemberFunction (CType.memberFunction C R A false false) = some n ∧
      m.Arity = n.Arity ∧ m.ReturnType = n.ReturnType ∧ m.DeclaringType = n.DeclaringType ∧
      (∀ i, m.Args i = n.Args i) ∧ m.ArgsTuple = n.ArgsTuple ∧
      m.ArgsTupleDecay = n.ArgsTupleDecay ∧
      n.Arity = A.length ∧ n.ReturnType = R ∧ n.DeclaringType = C ∧ n.ArgsTuple = A :=
  ⟨rfl, _, _, rfl, rfl, rfl, rfl, rfl, fun _ => rfl, rfl, rfl, rfl, rfl, rfl, rfl⟩

/-- C15 at the plain function type `bool(int, int)`: the default template argument of
`CallableObject` is `true` for it, the specialization chosen is the one derived from
`MemberFunction<decltype(&T::operator())>`, and `&T::operator()` is ill-formed for a type that
is not a class, so `CallableObject<bool(int, int)>` cannot be instantiated and declares no
`Callable`. -/
theorem C15_function_type_not_instantiable :
    CallableObject.defaultArgument (fun _ => [])
        (CType.function (CType.fundamental "bool")
          [CType.fundamental "int", CType.fundamental "int"]) = true ∧
    addressOfCallOperator (fun _ => [])
        (CType.function (CType.fundamental "bool")
          [CType.fundamental "int", CType.fundamental "int"]) = none ∧
    CallableObject (fun _ => [])
        (CType.function (CType.fundamental "bool")
          [CType.fundamental "int", CType.fundamental "int"]) = none :=
  ⟨rfl, rfl, rfl⟩

/-- C20. `IsMemberFunction<T>::Value` is true exactly when `T` is a pointer to member function
`R (C::*)(A...)` without qualifier; it is false for the `const`-qualified `R (C::*)(A...) const`,
for pointers to function and for pointers to data member. `IsFunctionPointer<T>::Value` is
true exactly when `T` is `R(*)(A...)`. -/
theorem C20_is_member_function_is_function_pointer :
    (∀ T : CType, IsMemberFunction.Value T = true ↔
      ∃ C R A, T = CType.memberFunction C R A false false) ∧
    (∀ (C R : CType) (A : List CType) (isVolatile : Bool),
      IsMemberFunction.Value (CType.memberFunction C R A true isVolatile) = false) ∧
    (∀ (R : CType) (A : List CType),
      IsMemberFunction.Value (CType.pointer (CType.function R A)) = false) ∧
    (∀ C t : CType, IsMemberFunction.Value (CType.memberObject C t) = false) ∧
    (∀ T : CType, IsFunctionPointer.Value T = true ↔
      ∃ R A, T = CType.pointer (CType.function R A)) := by
  refine ⟨?_, ?_, ?_, ?_, ?_⟩
  · intro T
    constructor
    · intro h
      unfold IsMemberFunction.Value at h
      split at h
      · exact ⟨_, _, _, rfl⟩
      · exact absurd h (by simp)
    · rintro ⟨C, R, A, rfl⟩
      rfl
  · intro C R A isVolatile
    cases isVolatile <;> rfl
  · intro R A
    rfl
  · intro C t
    rfl
  · intro T
    constructor
    · intro h
      unfold IsFunctionPointer.Value at h
      split at h
      · exact ⟨_, _, rfl⟩
      · exact absurd h (by simp)
    · rintro ⟨R, A, rfl⟩
      rfl

end Introspect
end Core

end TFC
